import Mathlib

/-!
Verification of the RecallOS job pipeline and ranked-search core.

The definitions below are a shallow embedding of the TypeScript sources:
  - src/jobs/queue.ts        (JobQueue: enqueue / claimNext / complete / fail)
  - src/main/main.ts         (recallos:search and recallos:searchSnippets
                              handlers: query parser, LIKE fallback engine,
                              scoring, mergeRanges / highlightAll /
                              buildTimeSnippet)
  - src/db/migrate.ts        (FTS5 mirror triggers on ocr_blocks/transcripts)

Machine integers of the source are modelled as Nat/Int, SQL REAL scoring
arithmetic as Rat, fallible storage operations by an explicit oracle that
says which statement succeeds, and try/catch by an Except layer.
-/

namespace RecallOS

/-! ## Job queue (src/jobs/queue.ts)

A row of the `jobs` table.  `payload_json` is an opaque string here
(the queue only stores and returns it).  `updated_at` is not modelled:
no claim mentions it. -/

inductive JStatus where
  | queued
  | delayed
  | running
  | failed
deriving DecidableEq, Repr

structure Job where
  id : Nat
  jtype : String
  payload : String
  status : JStatus
  attempts : Nat
  created_at : Nat
  next_run_at : Option Nat
deriving DecidableEq, Repr

/-- The persistent queue state.  `nextId` models sqlite AUTOINCREMENT
(`last_insert_rowid`), `now` the wall clock in epoch seconds, and
`hasNextRunCol` whether migration 0004 added the `next_run_at` column
(`JobQueue.hasNextRun` probes it with a PRAGMA). -/
structure QState where
  jobs : List Job
  nextId : Nat
  now : Nat
  hasNextRunCol : Bool
deriving DecidableEq, Repr

/-- One flag per kind of prepared statement: `true` means the statement
runs, `false` means the storage layer throws when it is executed.  This
is the oracle against which the queue's try/catch behaviour is stated. -/
structure DbOracle where
  pragmaOk : Bool
  insertOk : Bool
  rowidOk : Bool
  selectOk : Bool
  updateOk : Bool
  deleteOk : Bool
deriving DecidableEq, Repr

/-- The oracle under which every statement succeeds. -/
def okOracle : DbOracle :=
  { pragmaOk := true, insertOk := true, rowidOk := true,
    selectOk := true, updateOk := true, deleteOk := true }

/-- `JobQueue.hasNextRun`: PRAGMA table_info inside its own try/catch;
a storage failure is swallowed and reported as `false`. -/
def hasNextRun (o : DbOracle) (s : QState) : Bool :=
  o.pragmaOk && s.hasNextRunCol

/-- `SELECT ... WHERE id = ?` followed by `.get()`: the first row with
the given id. -/
def jobFind (jobs : List Job) (id : Nat) : Option Job :=
  jobs.find? (fun j => j.id = id)

/-- A storage exception, before it is caught. -/
inductive DbErr where
  | thrown
deriving DecidableEq, Repr

/-- Body of `JobQueue.enqueue` before the surrounding catch: INSERT then
SELECT last_insert_rowid().  A failing INSERT leaves the table unchanged;
a failing rowid SELECT happens after the row is committed. -/
def enqRow (o : DbOracle) (jtype payload : String) (delaySec : Int)
    (s : QState) : Job :=
  let delay : Nat := (max 0 delaySec).toNat
  { id := s.nextId, jtype := jtype, payload := payload,
    status := if delay > 0 then JStatus.delayed else JStatus.queued,
    attempts := 0, created_at := s.now,
    next_run_at := if hasNextRun o s then some (s.now + delay) else none }

def enqueueE (o : DbOracle) (jtype payload : String) (delaySec : Int)
    (s : QState) : Except DbErr (Option Nat) × QState :=
  match o.insertOk with
  | false => (Except.error DbErr.thrown, s)
  | true =>
    let row := enqRow o jtype payload delaySec s
    let s1 : QState := { s with jobs := s.jobs ++ [row], nextId := s.nextId + 1 }
    match o.rowidOk with
    | false => (Except.error DbErr.thrown, s1)
    | true => (Except.ok (some row.id), s1)

/-- `JobQueue.enqueue`: the body above wrapped in `try ... catch { return null }`. -/
def enqueue (o : DbOracle) (jtype payload : String) (delaySec : Int)
    (s : QState) : Option Nat × QState :=
  match enqueueE o jtype payload delaySec s with
  | (Except.ok v, s') => (v, s')
  | (Except.error _, s') => (none, s')

/-- Eligibility predicate of `claimNext`'s SELECT: status IN
('queued','delayed') with a due `next_run_at` when the column exists,
status = 'queued' otherwise; in both shapes attempts < maxAttempts. -/
def eligible (hnr : Bool) (now : Nat) (maxAttempts : Nat) (j : Job) : Bool :=
  (match hnr with
   | true =>
     (decide (j.status = JStatus.queued) || decide (j.status = JStatus.delayed)) &&
     (match j.next_run_at with
      | none => true
      | some t => decide (t ≤ now))
   | false => decide (j.status = JStatus.queued)) &&
  decide (j.attempts < maxAttempts)

/-- `ORDER BY created_at ASC LIMIT 1`: the earliest row by creation time;
on ties the row that comes first in table order. -/
def pickOldest : List Job → Option Job
  | [] => none
  | j :: rest =>
    match pickOldest rest with
    | none => some j
    | some k => if k.created_at < j.created_at then some k else some j

/-- `UPDATE jobs SET status = 'running' WHERE id = ?` (all rows with the id). -/
def setRunning (jobs : List Job) (id : Nat) : List Job :=
  jobs.map (fun j => if j.id = id then { j with status := JStatus.running } else j)

/-- `JobQueue.claimNext`: select the oldest eligible job, flip it to
running, return it; any storage exception is swallowed into `null`
(a failing UPDATE happens before the row is mutated). -/
def claimNext (o : DbOracle) (maxAttempts : Nat) (s : QState) :
    Option Job × QState :=
  match o.selectOk with
  | false => (none, s)
  | true =>
    match pickOldest (s.jobs.filter (eligible (hasNextRun o s) s.now maxAttempts)) with
    | none => (none, s)
    | some row =>
      match o.updateOk with
      | false => (none, s)
      | true => (some row, { s with jobs := setRunning s.jobs row.id })

/-- Body of `JobQueue.complete` before the catch: `DELETE FROM jobs WHERE id = ?`. -/
def completeE (o : DbOracle) (id : Nat) (s : QState) :
    Except DbErr Unit × QState :=
  match o.deleteOk with
  | false => (Except.error DbErr.thrown, s)
  | true => (Except.ok (), { s with jobs := s.jobs.filter (fun j => j.id ≠ id) })

/-- `JobQueue.complete`: the body wrapped in `try ... catch {}`. -/
def complete (o : DbOracle) (id : Nat) (s : QState) : QState :=
  (completeE o id s).2

/-- The row produced by `fail`'s UPDATE for a job whose stored attempt
count was read as `att0`: attempts become `att0 + 1`; the terminal branch
sets status 'failed'; the retry branch requeues with the capped
exponential backoff `min 60 (2 ^ attempts)` when the column exists. -/
def failUpdate (hnr : Bool) (now : Nat) (att0 : Nat) (requeue : Bool)
    (j : Job) : Job :=
  if requeue = false ∨ 5 ≤ att0 + 1 then
    { j with status := JStatus.failed, attempts := att0 + 1 }
  else if hnr then
    { j with status := JStatus.queued, attempts := att0 + 1,
             next_run_at := some (now + min 60 (2 ^ (att0 + 1))) }
  else
    { j with status := JStatus.queued, attempts := att0 + 1 }

/-- Body of `JobQueue.fail` before the catch: SELECT attempts (a missing
row reads as 0 via `r?.attempts ?? 0`), then a single UPDATE; a failing
UPDATE leaves the table unchanged. -/
def failE (o : DbOracle) (id : Nat) (requeue : Bool) (s : QState) :
    Except DbErr Unit × QState :=
  match o.selectOk with
  | false => (Except.error DbErr.thrown, s)
  | true =>
    let att0 : Nat := match jobFind s.jobs id with
      | some r => r.attempts
      | none => 0
    match o.updateOk with
    | false => (Except.error DbErr.thrown, s)
    | true =>
      (Except.ok (),
       { s with jobs := s.jobs.map (fun j =>
           if j.id = id then failUpdate (hasNextRun o s) s.now att0 requeue j
           else j) })

/-- `JobQueue.fail`: the body wrapped in `try ... catch {}`. -/
def fail (o : DbOracle) (id : Nat) (requeue : Bool) (s : QState) : QState :=
  (failE o id requeue s).2

/-! Operation sequences over the queue, for the reclaim invariant. -/

inductive QOp where
  | enq (o : DbOracle) (jtype payload : String) (delaySec : Int)
  | claim (o : DbOracle) (maxAttempts : Nat)
  | compl (o : DbOracle) (id : Nat)
  | failOp (o : DbOracle) (id : Nat) (requeue : Bool)
  | tick (dt : Nat)
deriving DecidableEq, Repr

def stepOp (s : QState) : QOp → QState
  | QOp.enq o t p d => (enqueue o t p d s).2
  | QOp.claim o ma => (claimNext o ma s).2
  | QOp.compl o id => complete o id s
  | QOp.failOp o id rq => fail o id rq s
  | QOp.tick dt => { s with now := s.now + dt }

def runOps (s : QState) (ops : List QOp) : QState :=
  ops.foldl stepOp s

/-- Invariant: every id in the table was allocated below `nextId`, and
every row carrying the distinguished id `jid` is terminally failed with
attempts at the maximum. -/
def DeadInv (jid : Nat) (s : QState) : Prop :=
  jid < s.nextId ∧
  (∀ j ∈ s.jobs, j.id < s.nextId) ∧
  (∀ j ∈ s.jobs, j.id = jid → j.status = JStatus.failed ∧ 5 ≤ j.attempts)

/-! ## Character-level models of the JS string primitives the handlers
use (String.trim / toUpperCase / toLowerCase / endsWith / split;
modelled over Char lists so that concrete runs reduce). -/

def jsTrim (s : String) : String :=
  String.mk
    (((s.toList.dropWhile Char.isWhitespace).reverse.dropWhile
      Char.isWhitespace).reverse)

def strUpper (s : String) : String := String.mk (s.toList.map Char.toUpper)

def strLowerStr (s : String) : String := String.mk (s.toList.map Char.toLower)

/-- `raw.endsWith('*')`. -/
def endsWithStar (s : String) : Bool :=
  match s.toList.getLast? with
  | some c => decide (c = '*')
  | none => false

/-- `scrubbed.split(/\s+/)` up to empty pieces, which every consumer
skips. -/
def splitWsChars : List Char → List Char → List String
  | [], acc => [String.mk acc.reverse]
  | c :: rest, acc =>
    if c.isWhitespace then String.mk acc.reverse :: splitWsChars rest []
    else splitWsChars rest (c :: acc)

/-! ## Persistent store (src/db/migrate.ts tables)

Row types carry the columns the verified claims read; unused columns
(bounding boxes, confidences, codecs, …) are omitted. -/

structure Chunk where
  id : Nat
  path : String
  started_at : Int
  duration_ms : Int
deriving DecidableEq, Repr

structure OcrBlock where
  id : Nat
  chunk_id : Nat
  ts_ms : Int
  text : String
deriving DecidableEq, Repr

structure TranscriptRow where
  id : Nat
  chunk_id : Nat
  ts_ms : Int
  speaker : Option String
  text : String
deriving DecidableEq, Repr

structure ActivitySeg where
  id : Nat
  app_id : Option Nat
  window_title : Option String
  started_at : Int
  ended_at : Option Int
deriving DecidableEq, Repr

structure AppRow where
  id : Nat
  bundle_or_exe : String
  display_name : Option String
deriving DecidableEq, Repr

/-- One row of the fts_content FTS5 mirror (content, type, chunk_id, ts_ms). -/
structure FtsRow where
  rowid : Nat
  content : String
  ftype : String
  chunk_id : Nat
  ts_ms : Int
deriving DecidableEq, Repr

/-- The store.  `ftsEnabled` is the FTS5 capability flag
(`detectSqlFeatures().fts5`, which gates migration 0002 and so the mirror
triggers and the indexed search path); nextOcrId/nextTranscriptId model
the AUTOINCREMENT counters of the two content tables. -/
structure Store where
  chunks : List Chunk
  ocr_blocks : List OcrBlock
  transcripts : List TranscriptRow
  activity_segments : List ActivitySeg
  apps : List AppRow
  fts_content : List FtsRow
  ftsEnabled : Bool
  nextOcrId : Nat
  nextTranscriptId : Nat
deriving DecidableEq, Repr

/-! ## FTS mirror triggers (src/db/migrate.ts, 0002_fts5) and the
extraction handlers' inserts (main.ts ocr:frame / stt:chunk) -/

/-- The fts_content row the `ocr_to_fts` trigger writes: rowid = new.id. -/
def ocrMirrorRow (st : Store) (cid : Nat) (ts : Int) (text : String) : FtsRow :=
  { rowid := st.nextOcrId, content := text, ftype := "ocr",
    chunk_id := cid, ts_ms := ts }

/-- The fts_content row the `transcript_to_fts` trigger writes. -/
def trMirrorRow (st : Store) (cid : Nat) (ts : Int) (text : String) : FtsRow :=
  { rowid := st.nextTranscriptId, content := text, ftype := "transcript",
    chunk_id := cid, ts_ms := ts }

/-- INSERT INTO ocr_blocks followed by the `ocr_to_fts` AFTER INSERT
trigger, which mirrors the row into fts_content with `rowid = new.id`
(the trigger exists only when migration 0002 ran, i.e. FTS5 is
available). -/
def insertOcrBlock (st : Store) (cid : Nat) (ts : Int) (text : String) : Store :=
  { st with
    ocr_blocks := st.ocr_blocks ++
      [{ id := st.nextOcrId, chunk_id := cid, ts_ms := ts, text := text }],
    nextOcrId := st.nextOcrId + 1,
    fts_content :=
      if st.ftsEnabled then st.fts_content ++ [ocrMirrorRow st cid ts text]
      else st.fts_content }

/-- INSERT INTO transcripts followed by the `transcript_to_fts` trigger. -/
def insertTranscript (st : Store) (cid : Nat) (ts : Int)
    (speaker : Option String) (text : String) : Store :=
  { st with
    transcripts := st.transcripts ++
      [{ id := st.nextTranscriptId, chunk_id := cid, ts_ms := ts,
         speaker := speaker, text := text }],
    nextTranscriptId := st.nextTranscriptId + 1,
    fts_content :=
      if st.ftsEnabled then st.fts_content ++ [trMirrorRow st cid ts text]
      else st.fts_content }

inductive InsOp where
  | ocrIns (cid : Nat) (ts : Int) (text : String)
  | trIns (cid : Nat) (ts : Int) (speaker : Option String) (text : String)
deriving DecidableEq, Repr

def applyIns (st : Store) : InsOp → Store
  | InsOp.ocrIns cid ts text => insertOcrBlock st cid ts text
  | InsOp.trIns cid ts sp text => insertTranscript st cid ts sp text

def applyInsList (st : Store) (ops : List InsOp) : Store :=
  ops.foldl applyIns st

/-- The mirror invariant: with the index enabled, every extracted block
has an fts_content entry of the same row identity (rowid = base id) and
the same content, kind, chunk and offset. -/
def Mirrored (st : Store) : Prop :=
  st.ftsEnabled = true →
    (∀ o ∈ st.ocr_blocks, ∃ f ∈ st.fts_content,
      f.rowid = o.id ∧ f.ftype = "ocr" ∧ f.content = o.text ∧
      f.chunk_id = o.chunk_id ∧ f.ts_ms = o.ts_ms) ∧
    (∀ t ∈ st.transcripts, ∃ f ∈ st.fts_content,
      f.rowid = t.id ∧ f.ftype = "transcript" ∧ f.content = t.text ∧
      f.chunk_id = t.chunk_id ∧ f.ts_ms = t.ts_ms)

/-! ## LIKE patterns and the query mini-language (main.ts search handler)

`escapeLike` escapes `\\ % _`, and every pattern built from it is either
`%esc%` or `esc%`; composed with SQLite's LIKE (case-insensitive
matching, modelled via Char.toLower) those denote substring containment
and prefix matching of the raw token. -/

def lowerList (s : String) : List Char := s.toList.map Char.toLower

/-- The raw token occurs at position i of the haystack (both lowered). -/
def matchesAt (hay tok : List Char) (i : Nat) : Bool :=
  tok.isPrefixOf (hay.drop i)

/-- `text LIKE '%tok%'` (with the token's metacharacters escaped). -/
def likeContains (tok hay : String) : Bool :=
  (List.range ((lowerList hay).length + 1)).any
    (fun i => matchesAt (lowerList hay) (lowerList tok) i)

/-- `text LIKE 'tok%'`. -/
def likeStarts (tok hay : String) : Bool :=
  (lowerList tok).isPrefixOf (lowerList hay)

/-- A query token's pattern: trailing `*` becomes a starts-with match
(`esc%`), anything else a substring match (`%esc%`). -/
def tokenMatches (tok : String) (text : String) : Bool :=
  if endsWithStar tok then likeStarts (tok.dropRight 1) text
  else likeContains tok text

inductive QTok where
  | andTok
  | orTok
  | strTok (s : String)
deriving DecidableEq, Repr

/-- The character scan of `parseQuery`: spaces skipped, a `"` opens a
phrase read to the next `"` (or the end), other runs end at a space and
become AND/OR markers or plain tokens. -/
def tokenizeAux : Nat → List Char → List QTok
  | 0, _ => []
  | _ + 1, [] => []
  | fuel + 1, c :: rest =>
    if c = ' ' then tokenizeAux fuel rest
    else if c = '"' then
      let buf := rest.takeWhile (fun ch => ch ≠ '"')
      let rest' := rest.dropWhile (fun ch => ch ≠ '"')
      QTok.strTok (jsTrim (String.mk buf)) ::
        tokenizeAux fuel (if rest'.isEmpty then [] else rest'.tail)
    else
      let buf := c :: rest.takeWhile (fun ch => ch ≠ ' ')
      let rest' := rest.dropWhile (fun ch => ch ≠ ' ')
      (if strUpper (String.mk buf) = "AND" then QTok.andTok
       else if strUpper (String.mk buf) = "OR" then QTok.orTok
       else QTok.strTok (jsTrim (String.mk buf))) :: tokenizeAux fuel rest'

def tokenize (q : String) : List QTok :=
  tokenizeAux (q.length + 1) q.toList

/-- Disjunctive normal form: OR starts a new group, AND is skipped,
non-empty strings join the current group. -/
def dnfAux : List QTok → List String → List (List String)
  | [], curr => [curr]
  | QTok.orTok :: ts, curr => curr :: dnfAux ts []
  | QTok.andTok :: ts, curr => dnfAux ts curr
  | QTok.strTok s :: ts, curr =>
    if s.length ≠ 0 then dnfAux ts (curr ++ [s]) else dnfAux ts curr

def parseQuery (q : String) : List (List String) :=
  (dnfAux (tokenize q) []).filter (fun g => !g.isEmpty)

/-- First match of the regex `"([^"]+)"` — the first double-quoted
non-empty phrase with a closing quote; empty string when none. -/
def findPhraseAux : Nat → List Char → Option String
  | 0, _ => none
  | _ + 1, [] => none
  | fuel + 1, c :: rest =>
    if c = '"' then
      let buf := rest.takeWhile (fun ch => ch ≠ '"')
      let rest' := rest.dropWhile (fun ch => ch ≠ '"')
      if rest'.isEmpty then none
      else if buf.isEmpty then findPhraseAux fuel rest
      else some (String.mk buf)
    else findPhraseAux fuel rest

def exactPhraseOf (q : String) : String :=
  (findPhraseAux (q.length + 1) q.toList).getD ""

/-! ## Search arguments: the handler's JS-level coercions -/

/-- `payload?.q` as seen by the handler: a string, absent, or some other
JS type (the latter two normalise to the empty string). -/
inductive QField where
  | missing
  | nonString
  | str (s : String)
deriving DecidableEq, Repr

def qTrimmed : QField → String
  | QField.str s => jsTrim s
  | _ => ""

/-- `Math.max(1, Math.min(100, Number(payload?.limit || 20)))`. -/
def limitOf (v : Option Int) : Int :=
  max 1 (min 100 (match v with
    | none => 20
    | some n => if n = 0 then 20 else n))

/-- `Math.max(0, Number(payload?.offset || 0))`. -/
def offsetOf (v : Option Int) : Int :=
  max 0 (v.getD 0)

/-- `typeof v === 'string' && v ? v : null` — empty strings become null. -/
def optStr (v : Option String) : Option String :=
  match v with
  | some s => if s = "" then none else some s
  | none => none

/-- `Number(v || 0) || null` — zero becomes null. -/
def optNum (v : Option Int) : Option Int :=
  match v with
  | some n => if n = 0 then none else some n
  | none => none

/-- `Math.max(30, Math.min(200, Number(payload?.windowChars || 80)))`. -/
def wcOf (v : Option Int) : Int :=
  max 30 (min 200 (match v with
    | none => 80
    | some n => if n = 0 then 80 else n))

/-- `Math.max(0, Math.min(60, Number(payload?.windowSecs ?? 0)))`. -/
def wsOf (v : Option Int) : Int :=
  max 0 (min 60 (v.getD 0))

structure SearchPayload where
  q : QField
  limit : Option Int
  offset : Option Int
  speaker : Option String
  qtype : Option String
  dateFrom : Option Int
  dateTo : Option Int
  app : Option String
  window : Option String
  windowChars : Option Int
  windowSecs : Option Int
deriving DecidableEq, Repr

/-- The handler's normalised arguments (q trimmed, pagination clamped,
empty/zero filters nulled). -/
structure SearchArgs where
  q : String
  limit : Int
  offset : Int
  speaker : Option String
  typeFilter : Option String
  dateFrom : Option Int
  dateTo : Option Int
  appBundle : Option String
  windowLike : Option String
deriving DecidableEq, Repr

def normalizeArgs (pl : SearchPayload) : SearchArgs :=
  { q := qTrimmed pl.q,
    limit := limitOf pl.limit,
    offset := offsetOf pl.offset,
    speaker := optStr pl.speaker,
    typeFilter := optStr pl.qtype,
    dateFrom := optNum pl.dateFrom,
    dateTo := optNum pl.dateTo,
    appBundle := optStr pl.app,
    windowLike := optStr pl.window }

/-! ## Scoring (SQL REAL arithmetic over ℚ) -/

/-- Absolute hit time `mc.started_at + ts_ms/1000.0` in seconds. -/
def hitSec (c : Chunk) (ts_ms : Int) : ℚ :=
  (c.started_at : ℚ) + (ts_ms : ℚ) / 1000

/-- `(1.0 / (1.0 + ((now - hit) / 86400.0))) * 0.7`. -/
def recencyTerm (now : Int) (h : ℚ) : ℚ :=
  (1 / (1 + (((now : ℚ) - h) / 86400))) * (7/10)

/-- `seg.started_at <= hit AND (seg.ended_at IS NULL OR seg.ended_at >= hit)`. -/
def segActiveAt (g : ActivitySeg) (h : ℚ) : Bool :=
  decide ((g.started_at : ℚ) ≤ h) &&
  (match g.ended_at with
   | none => true
   | some e => decide (h ≤ (e : ℚ)))

/-- `seg.window_title LIKE '%pat%'`; a NULL title matches nothing. -/
def segWindowLike (g : ActivitySeg) (pat : String) : Bool :=
  match g.window_title with
  | none => false
  | some t => likeContains pat t

/-- The window-bonus EXISTS: some activity segment active at the hit time
whose title contains the pattern. -/
def windowMatchExists (segs : List ActivitySeg) (pat : String) (h : ℚ) : Bool :=
  segs.any (fun g => segActiveAt g h && segWindowLike g pat)

/-- The app/window-filter EXISTS, which INNER JOINs apps (a segment with
a NULL app_id never qualifies). -/
def appWindowPredicate (st : Store) (appBundle windowLike : Option String)
    (h : ℚ) : Bool :=
  match appBundle, windowLike with
  | none, none => true
  | _, _ =>
    st.activity_segments.any (fun g =>
      (match g.app_id with
       | none => false
       | some aid => st.apps.any (fun a =>
           decide (a.id = aid) &&
           (match appBundle with
            | none => true
            | some b => decide (a.bundle_or_exe = b)))) &&
      segActiveAt g h &&
      (match windowLike with
       | none => true
       | some w => segWindowLike g w))

/-- Per-AND-group token-indicator sum: `CASE WHEN text LIKE ? THEN 0.1
ELSE 0 END` summed over the group's tokens. -/
def groupIndicatorSum (g : List String) (text : String) : ℚ :=
  g.foldr (fun tok acc => (if tokenMatches tok text then (1/10 : ℚ) else 0) + acc) 0

/-- The whole indicator block: group sums added together; literal 0 when
the query parsed to no groups. -/
def groupsIndicator (groups : List (List String)) (text : String) : ℚ :=
  match groups with
  | [] => 0
  | _ => groups.foldr (fun g acc => groupIndicatorSum g text + acc) 0

/-- The fallback WHERE text predicate: `(g1 AND …) OR (g2 AND …)`;
absent when the query parsed to no groups (then `WHERE 1=1`). -/
def groupsWhere (groups : List (List String)) (text : String) : Bool :=
  match groups with
  | [] => true
  | _ => groups.any (fun g => g.all (fun t => tokenMatches t text))

/-- The fallback window-bonus pattern: the window filter when present,
otherwise the first quoted phrase or, failing that, the whole query
(`windowBoostLike`). -/
def fbWindowPat (a : SearchArgs) (ep : String) : String :=
  match a.windowLike with
  | some w => w
  | none => if ep ≠ "" then ep else a.q

/-- The fallback score expression (both content tables): the engine
relevance slot is the literal 0, then recency (the candidate is INNER
JOINed to its chunk, so `mc.id IS NOT NULL` always holds), the 0.3
window bonus, the 0.5 exact-phrase bonus (its CASE condition is the
literal 0 when the query has no quoted phrase), and the per-token 0.1
indicators. -/
def fallbackScore (now : Int) (groups : List (List String)) (ep : String)
    (windowPat : String) (segs : List ActivitySeg) (text : String) (h : ℚ) : ℚ :=
  0 + recencyTerm now h
    + (if windowMatchExists segs windowPat h then (3/10 : ℚ) else 0)
    + (if ep ≠ "" ∧ likeContains ep text = true then (1/2 : ℚ) else 0)
    + groupsIndicator groups text

/-! ## Result rows, ordering and pagination -/

structure ResultRow where
  rowid : Nat
  content : String
  rtype : String
  chunk_id : Nat
  ts_ms : Int
  score : ℚ
deriving DecidableEq, Repr

/-- Insertion into a sorted list (used to model the SQL ORDER BY; any
sort realising the comparator is a faithful model as ORDER BY specifies
only the resulting order). -/
def insertLe {α : Type} (le : α → α → Bool) (x : α) : List α → List α
  | [] => [x]
  | y :: ys => if le x y then x :: y :: ys else y :: insertLe le x ys

def isort {α : Type} (le : α → α → Bool) : List α → List α
  | [] => []
  | x :: xs => insertLe le x (isort le xs)

/-- `ORDER BY score DESC, ts_ms DESC` (the fallback search query). -/
def fbLe (x y : ResultRow) : Bool :=
  decide (y.score < x.score) ||
  (decide (x.score = y.score) && decide (y.ts_ms ≤ x.ts_ms))

/-- `ORDER BY score DESC, f.rowid DESC` (the indexed search query). -/
def idxLe (x y : ResultRow) : Bool :=
  decide (y.score < x.score) ||
  (decide (x.score = y.score) && decide (y.rowid ≤ x.rowid))

/-- `LIMIT ? OFFSET ?`. -/
def paginate (limit offset : Int) (l : List ResultRow) : List ResultRow :=
  (l.drop offset.toNat).take limit.toNat

/-- `INNER JOIN media_chunks mc ON mc.id = x.chunk_id`. -/
def chunkFind (st : Store) (cid : Nat) : Option Chunk :=
  st.chunks.find? (fun c => c.id = cid)

/-- `mc.started_at >= from AND mc.started_at <= to` for the filters that
are present. -/
def dateOk (f t : Option Int) (c : Chunk) : Bool :=
  (match f with | none => true | some x => decide (x ≤ c.started_at)) &&
  (match t with | none => true | some x => decide (c.started_at ≤ x))

/-! ## Fallback (LIKE) search -/

/-- The OCR arm of the fallback UNION: present unless the type filter
selects transcripts; the speaker filter is not applied here (buildWhere
adds it only for the transcript alias). -/
def fallbackOcrRows (st : Store) (now : Int) (a : SearchArgs)
    (groups : List (List String)) (ep : String) : List ResultRow :=
  if a.typeFilter = none ∨ a.typeFilter = some "ocr" then
    st.ocr_blocks.filterMap (fun o =>
      match chunkFind st o.chunk_id with
      | none => none
      | some c =>
        if groupsWhere groups o.text ∧ dateOk a.dateFrom a.dateTo c ∧
            appWindowPredicate st a.appBundle a.windowLike (hitSec c o.ts_ms) then
          some { rowid := o.id, content := o.text, rtype := "ocr",
                 chunk_id := o.chunk_id, ts_ms := o.ts_ms,
                 score := fallbackScore now groups ep (fbWindowPat a ep)
                   st.activity_segments o.text (hitSec c o.ts_ms) }
        else none)
  else []

/-- The transcript arm of the fallback UNION, with the speaker equality
predicate when a speaker filter is present (a NULL speaker matches
nothing). -/
def fallbackTranscriptRows (st : Store) (now : Int) (a : SearchArgs)
    (groups : List (List String)) (ep : String) : List ResultRow :=
  if a.typeFilter = none ∨ a.typeFilter = some "transcript" then
    st.transcripts.filterMap (fun t =>
      match chunkFind st t.chunk_id with
      | none => none
      | some c =>
        if groupsWhere groups t.text ∧
            (match a.speaker with
             | none => true
             | some sp => decide (t.speaker = some sp)) = true ∧
            dateOk a.dateFrom a.dateTo c ∧
            appWindowPredicate st a.appBundle a.windowLike (hitSec c t.ts_ms) then
          some { rowid := t.id, content := t.text, rtype := "transcript",
                 chunk_id := t.chunk_id, ts_ms := t.ts_ms,
                 score := fallbackScore now groups ep (fbWindowPat a ep)
                   st.activity_segments t.text (hitSec c t.ts_ms) }
        else none)
  else []

/-- The fallback SQL references the `mc` join inside its score expression
unconditionally, but `applyDateJoin` adds the join only when a
date/app/window filter is present; without one the statement fails to
prepare and the handler's catch returns the empty list. -/
def fallbackJoinOk (a : SearchArgs) : Bool :=
  a.dateFrom.isSome || a.dateTo.isSome || a.appBundle.isSome || a.windowLike.isSome

/-- The whole fallback query: OCR arm UNION ALL transcript arm, ordered
by score descending then ts_ms descending, paginated. -/
def fallbackSearch (st : Store) (now : Int) (a : SearchArgs) : List ResultRow :=
  if fallbackJoinOk a then
    paginate a.limit a.offset
      (isort fbLe
        (fallbackOcrRows st now a (parseQuery a.q) (exactPhraseOf a.q) ++
         fallbackTranscriptRows st now a (parseQuery a.q) (exactPhraseOf a.q)))
  else []

/-! ## Indexed (FTS5) search

The FTS engine itself is a black box: `mtch q content` stands for
`fts_content MATCH ?` accepting the row, and `bm f` for the engine's
`COALESCE(-bm25(f), 0)` relevance value. -/

/-- The indexed window-bonus pattern: the window filter, else the first
quoted phrase; with neither, the CASE condition is the literal 0. -/
def idxWindowPat (a : SearchArgs) (ep : String) : Option String :=
  match a.windowLike with
  | some w => some w
  | none => if ep ≠ "" then some ep else none

/-- The indexed score: engine relevance, recency (0 on a LEFT JOIN miss),
window bonus (its hit-time expression reads mc, so it needs the chunk),
and the 0.5 exact-phrase bonus on the matched content. -/
def idxScoreOf (st : Store) (now : Int) (a : SearchArgs) (ep : String)
    (bm : FtsRow → ℚ) (f : FtsRow) (mc : Option Chunk) : ℚ :=
  bm f
  + (match mc with
     | some c => recencyTerm now (hitSec c f.ts_ms)
     | none => 0)
  + (match idxWindowPat a ep, mc with
     | some pat, some c =>
       if windowMatchExists st.activity_segments pat (hitSec c f.ts_ms) then
         (3/10 : ℚ)
       else 0
     | _, _ => 0)
  + (if ep ≠ "" ∧ likeContains ep f.content = true then (1/2 : ℚ) else 0)

def typeOkRow (a : SearchArgs) (f : FtsRow) : Bool :=
  match a.typeFilter with
  | none => true
  | some ty => decide (f.ftype = ty)

def mkIdxRow (st : Store) (now : Int) (a : SearchArgs) (ep : String)
    (bm : FtsRow → ℚ) (f : FtsRow) (mc : Option Chunk) : ResultRow :=
  { rowid := f.rowid, content := f.content, rtype := f.ftype,
    chunk_id := f.chunk_id, ts_ms := f.ts_ms,
    score := idxScoreOf st now a ep bm f mc }

/-- The indexed candidates.  Speaker branch: INNER JOIN transcripts on
`t.id = f.rowid AND f.type = 'transcript'` plus INNER JOIN mc (the type
filter is not re-applied there).  Filter branch: INNER JOIN mc.  Plain
branch: LEFT JOIN mc. -/
def indexedCandidates (st : Store) (now : Int) (a : SearchArgs) (ep : String)
    (mtch : String → String → Bool) (bm : FtsRow → ℚ) : List ResultRow :=
  match a.speaker with
  | some sp =>
    st.fts_content.filterMap (fun f =>
      if f.ftype = "transcript" then
        match st.transcripts.find? (fun t => t.id = f.rowid),
              chunkFind st f.chunk_id with
        | some t, some c =>
          if mtch a.q f.content = true ∧ t.speaker = some sp ∧
              dateOk a.dateFrom a.dateTo c ∧
              appWindowPredicate st a.appBundle a.windowLike (hitSec c f.ts_ms) then
            some (mkIdxRow st now a ep bm f (some c))
          else none
        | _, _ => none
      else none)
  | none =>
    if a.dateFrom.isSome || a.dateTo.isSome ||
        a.appBundle.isSome || a.windowLike.isSome then
      st.fts_content.filterMap (fun f =>
        match chunkFind st f.chunk_id with
        | some c =>
          if mtch a.q f.content = true ∧ typeOkRow a f = true ∧
              dateOk a.dateFrom a.dateTo c ∧
              appWindowPredicate st a.appBundle a.windowLike (hitSec c f.ts_ms) then
            some (mkIdxRow st now a ep bm f (some c))
          else none
        | none => none)
    else
      st.fts_content.filterMap (fun f =>
        if mtch a.q f.content = true ∧ typeOkRow a f = true then
          some (mkIdxRow st now a ep bm f (chunkFind st f.chunk_id))
        else none)

/-- The indexed query: candidates ordered by score descending then rowid
descending, paginated. -/
def indexedSearch (st : Store) (now : Int) (a : SearchArgs)
    (mtch : String → String → Bool) (bm : FtsRow → ℚ) : List ResultRow :=
  paginate a.limit a.offset
    (isort idxLe (indexedCandidates st now a (exactPhraseOf a.q) mtch bm))

/-- The `recallos:search` handler: normalise arguments, return [] on an
empty query before touching the store, then the indexed path when FTS5
is available and the LIKE fallback otherwise. -/
def recallosSearch (pl : SearchPayload) (st : Store) (now : Int)
    (mtch : String → String → Bool) (bm : FtsRow → ℚ) : List ResultRow :=
  let a := normalizeArgs pl
  if a.q = "" then []
  else if st.ftsEnabled then indexedSearch st now a mtch bm
  else fallbackSearch st now a

/-! ## Token extraction and the highlighter
(main.ts extractTokens / mergeRanges / highlightAll / buildTimeSnippet)

A highlight token is a quoted phrase (matched literally) or a word token,
the latter possibly a `tok*` wildcard whose regex appends `\S*`; matching
is case-insensitive (the regexes use the `i` flag), modelled by lowering
both sides. -/

structure HlTok where
  text : String
  star : Bool
deriving DecidableEq, Repr

/-- All matches of the global regex `"([^"]+)"`: each quoted non-empty
run with a closing quote, left to right. -/
def allPhrasesAux : Nat → List Char → List String
  | 0, _ => []
  | _ + 1, [] => []
  | fuel + 1, c :: rest =>
    if c = '"' then
      let buf := rest.takeWhile (fun ch => ch ≠ '"')
      let rest' := rest.dropWhile (fun ch => ch ≠ '"')
      if rest'.isEmpty then []
      else if buf.isEmpty then allPhrasesAux fuel rest
      else String.mk buf :: allPhrasesAux fuel rest'.tail
    else allPhrasesAux fuel rest

/-- `input.replace(/"[^"]+"/g, ' ')`. -/
def scrubPhrasesAux : Nat → List Char → List Char
  | 0, l => l
  | _ + 1, [] => []
  | fuel + 1, c :: rest =>
    if c = '"' then
      let buf := rest.takeWhile (fun ch => ch ≠ '"')
      let rest' := rest.dropWhile (fun ch => ch ≠ '"')
      if rest'.isEmpty ∨ buf.isEmpty then c :: scrubPhrasesAux fuel rest
      else ' ' :: scrubPhrasesAux fuel rest'.tail
    else c :: scrubPhrasesAux fuel rest

def phraseKey (p : String) : String := "p:" ++ strLowerStr p

def wordKey (b : String) (st : Bool) : String :=
  "t:" ++ (if st then strLowerStr b ++ "*" else strLowerStr b)

/-- The phrase pass of extractTokens: trim, drop empties, dedupe on the
lowercased key. -/
def collectPhrases : List String → List String → List HlTok × List String
  | [], seen => ([], seen)
  | p :: ps, seen =>
    let t := jsTrim p
    if t = "" then collectPhrases ps seen
    else if phraseKey t ∈ seen then collectPhrases ps seen
    else
      let r := collectPhrases ps (phraseKey t :: seen)
      ({ text := t, star := false } :: r.1, r.2)

/-- The word pass: split of the scrubbed input, AND/OR markers dropped,
trailing `*` split off, dedupe on the lowercased key. -/
def collectWords : List String → List String → List HlTok
  | [], _ => []
  | raw :: ws, seen =>
    if raw = "" then collectWords ws seen
    else if strUpper raw = "AND" ∨ strUpper raw = "OR" then collectWords ws seen
    else
      let st := endsWithStar raw
      let base := jsTrim (if st then raw.dropRight 1 else raw)
      if base = "" then collectWords ws seen
      else if wordKey base st ∈ seen then collectWords ws seen
      else { text := base, star := st } :: collectWords ws (wordKey base st :: seen)

/-- `extractTokens`: phrases first, then words of the scrubbed query,
capped at 16 tokens. -/
def extractTokens (input : String) : List HlTok :=
  let pr := collectPhrases (allPhrasesAux (input.length + 1) input.toList) []
  let scrubbed := jsTrim (String.mk (scrubPhrasesAux (input.length + 1) input.toList))
  (pr.1 ++ collectWords (splitWsChars scrubbed.toList []) pr.2).take 16

/-- Regex `\S`. -/
def isNonSpace (c : Char) : Bool := !c.isWhitespace

/-- Length of the regex match at position i: the token's length, plus the
maximal run of non-space characters after it for a `tok*` token
(`escapeReg(s) + '\S*'`); none when the token does not occur at i. -/
def matchLenAt (star : Bool) (tok text : List Char) (i : Nat) : Option Nat :=
  if tok.isPrefixOf (text.drop i) then
    some (tok.length +
      (if star then ((text.drop (i + tok.length)).takeWhile isNonSpace).length
       else 0))
  else none

/-- The global-regex scan (`while ((m = re.exec(text)) !== null)`): from
position p, the earliest match at or after p is recorded and the scan
resumes at its end. -/
def scanAux (star : Bool) (tok text : List Char) : Nat → Nat → List (Nat × Nat)
  | _, 0 => []
  | p, fuel + 1 =>
    if p + tok.length ≤ text.length then
      match matchLenAt star tok text p with
      | some len => (p, p + len) :: scanAux star tok text (p + len) fuel
      | none => scanAux star tok text (p + 1) fuel
    else []

/-- All match ranges of one token over the text (both lowered for the
case-insensitive flag). -/
def tokRanges (text : String) (tk : HlTok) : List (Nat × Nat) :=
  if tk.text = "" then []
  else scanAux tk.star (lowerList tk.text) (lowerList text) 0
    ((lowerList text).length + 1)

/-- The ranges of every token, in token order. -/
def allRanges (text : String) (toks : List HlTok) : List (Nat × Nat) :=
  (toks.map (tokRanges text)).flatten

/-- The JS `ranges.sort((a, b) => a[0] - b[0])` comparator. -/
def rangeLe (a b : Nat × Nat) : Bool := decide (a.1 ≤ b.1)

/-- The sweep of `mergeRanges`: a new range starting at or before the
current end extends it (`last[1] = Math.max(last[1], e)`), otherwise the
current range is emitted. -/
def sweepGo (cur : Nat × Nat) : List (Nat × Nat) → List (Nat × Nat)
  | [] => [cur]
  | r :: rs =>
    if r.1 ≤ cur.2 then sweepGo (cur.1, max cur.2 r.2) rs
    else cur :: sweepGo r rs

def sweep : List (Nat × Nat) → List (Nat × Nat)
  | [] => []
  | r :: rs => sweepGo r rs

/-- `mergeRanges`: sort by start (stable, as JS sort), then sweep. -/
def mergeRanges (l : List (Nat × Nat)) : List (Nat × Nat) :=
  sweep (isort rangeLe l)

/-- Emission of the bracketed output: plain text up to each merged range,
the range bracketed, then the tail. -/
def renderRanges (text : List Char) (pos : Nat) : List (Nat × Nat) → List Char
  | [] => text.drop pos
  | (s, e) :: rs =>
    ((text.drop pos).take (s - pos)) ++
      '[' :: (((text.drop s).take (e - s)) ++ ']' :: renderRanges text e rs)

/-- `highlightAll`: collect every token's match ranges, merge, bracket
each merged range; unchanged text when nothing matched. -/
def highlightAll (text : String) (toks : List HlTok) : String :=
  if (allRanges text toks).isEmpty then text
  else String.mk (renderRanges text.toList 0 (mergeRanges (allRanges text toks)))

/-! ## Snippets (`recallos:searchSnippets`) -/

structure SnipRow where
  snippet : String
  rtype : String
  chunk_id : Nat
  ts_ms : Int
deriving DecidableEq, Repr

/-- The context rows of buildTimeSnippet: same table, same chunk, ts_ms
within the window, ordered by ts_ms. -/
def ctxRows (st : Store) (rType : String) (cid : Nat) (startW endW : Int) :
    List String :=
  if rType = "transcript" then
    (isort (fun a b : TranscriptRow => decide (a.ts_ms ≤ b.ts_ms))
      (st.transcripts.filter (fun t =>
        decide (t.chunk_id = cid) && decide (startW ≤ t.ts_ms) &&
        decide (t.ts_ms ≤ endW)))).map (fun t => t.text)
  else
    (isort (fun a b : OcrBlock => decide (a.ts_ms ≤ b.ts_ms))
      (st.ocr_blocks.filter (fun o =>
        decide (o.chunk_id = cid) && decide (startW ≤ o.ts_ms) &&
        decide (o.ts_ms ≤ endW)))).map (fun o => o.text)

/-- The final trim of a highlighted snippet to about `2 * windowChars`
characters around the first bracket, with ellipses. -/
def cutAround (windowChars : Int) (highlighted : String) : String :=
  if highlighted.length ≤ windowChars.toNat * 2 then highlighted
  else
    match highlighted.toList.findIdx? (fun c => c = '[') with
    | none => String.mk (highlighted.toList.take (windowChars.toNat * 2)) ++ " …"
    | some first =>
      let startCut := first - windowChars.toNat
      let endCut := min highlighted.length (first + windowChars.toNat)
      (if startCut > 0 then "… " else "") ++
        String.mk ((highlighted.toList.drop startCut).take (endCut - startCut)) ++
        (if endCut < highlighted.length then " …" else "")

/-- `buildTimeSnippet`: nothing when the window is 0 or no context rows
exist; otherwise the context rows joined with the glue separator,
highlighted, and trimmed around the first highlight. -/
def buildTimeSnippet (st : Store) (toks : List HlTok)
    (windowSecs windowChars : Int) (rType : String) (cid : Nat)
    (ts : Int) : Option String :=
  if windowSecs = 0 then none
  else
    let rowsCtx := ctxRows st rType cid (max 0 (ts - windowSecs * 1000))
      (ts + windowSecs * 1000)
    if rowsCtx.isEmpty then none
    else some (cutAround windowChars (highlightAll
      (String.intercalate " … " rowsCtx) toks))

/-- `buildTimeSnippet(r) || alternative` — JS falsiness: null or the
empty string fall through. -/
def orElseSnippet (t : Option String) (alt : String) : String :=
  match t with
  | some s => if s = "" then alt else s
  | none => alt

/-- The snippet fallback's per-row snippet: time-window snippet when
windowSecs > 0 (falling back to the trimmed static highlight), else the
static highlight of the row content. -/
def snipOfRow (st : Store) (toks : List HlTok) (ws wc : Int)
    (rType : String) (cid : Nat) (ts : Int) (content : String) : String :=
  if ws > 0 then
    orElseSnippet (buildTimeSnippet st toks ws wc rType cid ts)
      (cutAround wc (highlightAll content toks))
  else cutAround wc (highlightAll content toks)

/-- The LIKE snippet fallback query: `text LIKE '%q%'` on both tables
(the whole trimmed query as one pattern), speaker on transcripts only,
date filters via an INNER JOIN added only for from/to; its app/window
EXISTS also reads `mc`, so app/window filters without a date filter fail
to prepare and the catch returns [].  Rows are ordered by ts_ms
ascending and paginated. -/
def snipFallbackRows (st : Store) (a : SearchArgs) : List ResultRow :=
  (if a.typeFilter = none ∨ a.typeFilter = some "ocr" then
    st.ocr_blocks.filterMap (fun o =>
      let hc := chunkFind st o.chunk_id
      if likeContains a.q o.text = true ∧
          (match a.dateFrom, a.dateTo, hc with
           | none, none, _ => true
           | _, _, none => false
           | _, _, some c => dateOk a.dateFrom a.dateTo c) = true ∧
          (match a.appBundle, a.windowLike, hc with
           | none, none, _ => true
           | _, _, none => false
           | _, _, some c =>
             appWindowPredicate st a.appBundle a.windowLike (hitSec c o.ts_ms)) = true then
        some { rowid := o.id, content := o.text, rtype := "ocr",
               chunk_id := o.chunk_id, ts_ms := o.ts_ms, score := 0 }
      else none)
  else []) ++
  (if a.typeFilter = none ∨ a.typeFilter = some "transcript" then
    st.transcripts.filterMap (fun t =>
      let hc := chunkFind st t.chunk_id
      if likeContains a.q t.text = true ∧
          (match a.speaker with
           | none => true
           | some sp => decide (t.speaker = some sp)) = true ∧
          (match a.dateFrom, a.dateTo, hc with
           | none, none, _ => true
           | _, _, none => false
           | _, _, some c => dateOk a.dateFrom a.dateTo c) = true ∧
          (match a.appBundle, a.windowLike, hc with
           | none, none, _ => true
           | _, _, none => false
           | _, _, some c =>
             appWindowPredicate st a.appBundle a.windowLike (hitSec c t.ts_ms)) = true then
        some { rowid := t.id, content := t.text, rtype := "transcript",
               chunk_id := t.chunk_id, ts_ms := t.ts_ms, score := 0 }
      else none)
  else [])

def snipFallback (st : Store) (a : SearchArgs) (toks : List HlTok)
    (ws wc : Int) : List SnipRow :=
  if (a.appBundle.isSome || a.windowLike.isSome) &&
      !(a.dateFrom.isSome || a.dateTo.isSome) then []
  else
    (paginate a.limit a.offset
      (isort (fun x y : ResultRow => decide (x.ts_ms ≤ y.ts_ms))
        (snipFallbackRows st a))).map (fun r =>
      { snippet := snipOfRow st toks ws wc r.rtype r.chunk_id r.ts_ms r.content,
        rtype := r.rtype, chunk_id := r.chunk_id, ts_ms := r.ts_ms })

/-- The indexed snippet query: FTS5 `snippet()` is the oracle `snip`; the
score drops the exact-phrase bonus and defaults its window pattern to the
whole query.  The speaker branch joins `mc` only when another filter
needs it, yet its score reads `mc`; with a speaker filter and no other
filter the statement fails to prepare (none ⇒ the handler falls through
to the LIKE fallback).  With `windowSecs > 0` each row's snippet is
replaced by its time-window snippet when one exists. -/
def snipIndexed (st : Store) (now : Int) (a : SearchArgs) (toks : List HlTok)
    (ws wc : Int) (mtch : String → String → Bool) (bm : FtsRow → ℚ)
    (snip : FtsRow → String) : Option (List SnipRow) :=
  let pat : Option String :=
    match a.windowLike with
    | some w => some w
    | none => if a.q ≠ "" then some a.q else none
  let score : FtsRow → Option Chunk → ℚ := fun f mc =>
    bm f
    + (match mc with
       | some c => recencyTerm now (hitSec c f.ts_ms)
       | none => 0)
    + (match pat, mc with
       | some p, some c =>
         if windowMatchExists st.activity_segments p (hitSec c f.ts_ms) then
           (3/10 : ℚ)
         else 0
       | _, _ => 0)
  let finish : List ResultRow → List SnipRow := fun cands =>
    (paginate a.limit a.offset (isort idxLe cands)).map (fun r =>
      { snippet :=
          if ws > 0 then
            orElseSnippet
              (buildTimeSnippet st toks ws wc r.rtype r.chunk_id r.ts_ms)
              r.content
          else r.content,
        rtype := r.rtype, chunk_id := r.chunk_id, ts_ms := r.ts_ms })
  match a.speaker with
  | some sp =>
    if a.dateFrom.isSome || a.dateTo.isSome ||
        a.appBundle.isSome || a.windowLike.isSome then
      some (finish (st.fts_content.filterMap (fun f =>
        match st.transcripts.find? (fun t => t.id = f.rowid),
              chunkFind st f.chunk_id with
        | some t, some c =>
          if f.ftype = "transcript" ∧ mtch a.q f.content = true ∧
              t.speaker = some sp ∧ dateOk a.dateFrom a.dateTo c ∧
              appWindowPredicate st a.appBundle a.windowLike
                (hitSec c f.ts_ms) then
            some { rowid := f.rowid, content := snip f, rtype := f.ftype,
                   chunk_id := f.chunk_id, ts_ms := f.ts_ms,
                   score := score f (some c) }
          else none
        | _, _ => none)))
    else none
  | none =>
    if a.dateFrom.isSome || a.dateTo.isSome ||
        a.appBundle.isSome || a.windowLike.isSome then
      some (finish (st.fts_content.filterMap (fun f =>
        match chunkFind st f.chunk_id with
        | some c =>
          if mtch a.q f.content = true ∧ typeOkRow a f = true ∧
              dateOk a.dateFrom a.dateTo c ∧
              appWindowPredicate st a.appBundle a.windowLike
                (hitSec c f.ts_ms) then
            some { rowid := f.rowid, content := snip f, rtype := f.ftype,
                   chunk_id := f.chunk_id, ts_ms := f.ts_ms,
                   score := score f (some c) }
          else none
        | none => none)))
    else
      some (finish (st.fts_content.filterMap (fun f =>
        if mtch a.q f.content = true ∧ typeOkRow a f = true then
          some { rowid := f.rowid, content := snip f, rtype := f.ftype,
                 chunk_id := f.chunk_id, ts_ms := f.ts_ms,
                 score := score f (chunkFind st f.chunk_id) }
        else none)))

/-- The `recallos:searchSnippets` handler: [] on an empty query before
touching the store; then the indexed snippet path when FTS5 is available
(falling through to the LIKE fallback when its statement cannot be
prepared), else the LIKE fallback. -/
def recallosSearchSnippets (pl : SearchPayload) (st : Store) (now : Int)
    (mtch : String → String → Bool) (bm : FtsRow → ℚ)
    (snip : FtsRow → String) : List SnipRow :=
  let a := normalizeArgs pl
  let wc := wcOf pl.windowChars
  let ws := wsOf pl.windowSecs
  if a.q = "" then []
  else
    let toks := extractTokens a.q
    match (if st.ftsEnabled then snipIndexed st now a toks ws wc mtch bm snip
           else none) with
    | some rows => rows
    | none => snipFallback st a toks ws wc

/-- Total number of query tokens (over all AND-groups) whose pattern
matches the text — the spec's reading of the 0.1-per-token signal. -/
def countMatchingTokens (groups : List (List String)) (text : String) : Nat :=
  (groups.map (fun g => (g.filter (fun t => tokenMatches t text)).length)).sum

/-- Half-open interval membership for highlight ranges. -/
def inRange (n : Nat) (r : Nat × Nat) : Prop := r.1 ≤ n ∧ n < r.2

instance (n : Nat) (r : Nat × Nat) : Decidable (inRange n r) := by
  unfold inRange
  infer_instance

/-- A position is covered by some range of the list. -/
def coveredBy (l : List (Nat × Nat)) (n : Nat) : Prop := ∃ r ∈ l, inRange n r

instance (l : List (Nat × Nat)) (n : Nat) : Decidable (coveredBy l n) := by
  unfold coveredBy
  infer_instance

/-! ## Concrete fixtures for witnesses and counterexamples -/

def emptyStore : Store :=
  { chunks := [], ocr_blocks := [], transcripts := [], activity_segments := [],
    apps := [], fts_content := [], ftsEnabled := false,
    nextOcrId := 1, nextTranscriptId := 1 }

def noMatch : String → String → Bool := fun _ _ => false

def zeroBm : FtsRow → ℚ := fun _ => 0

def noSnip : FtsRow → String := fun _ => ""

def emptyPayload : SearchPayload :=
  { q := QField.missing, limit := none, offset := none, speaker := none,
    qtype := none, dateFrom := none, dateTo := none, app := none,
    window := none, windowChars := none, windowSecs := none }

/-- C10 fixture: a whitespace-only query. -/
def c10Payload : SearchPayload :=
  { emptyPayload with q := QField.str "   " }

/-- C1 fixture: two OCR rows whose fallback scores tie (recency 0.35 +
one 0.1 token hit versus recency 0.25 + two 0.1 token hits) while their
ts_ms order disagrees with their id order. -/
def c1Chunk : Chunk :=
  { id := 10, path := "p", started_at := 3600, duration_ms := 999999999 }

def c1OcrA : OcrBlock :=
  { id := 1, chunk_id := 10, ts_ms := 110000000, text := "alpha" }

def c1OcrB : OcrBlock :=
  { id := 2, chunk_id := 10, ts_ms := 40880000, text := "ab" }

def c1St : Store :=
  { emptyStore with
    chunks := [c1Chunk], ocr_blocks := [c1OcrA, c1OcrB], nextOcrId := 3 }

def c1Pl : SearchPayload :=
  { emptyPayload with q := QField.str "a OR b", dateFrom := some 1 }

def c1Now : Int := 200000

def c1Args : SearchArgs := normalizeArgs c1Pl

def c1RowA : ResultRow :=
  { rowid := 1, content := "alpha", rtype := "ocr", chunk_id := 10,
    ts_ms := 110000000,
    score := fallbackScore c1Now (parseQuery c1Args.q) (exactPhraseOf c1Args.q)
      (fbWindowPat c1Args (exactPhraseOf c1Args.q)) c1St.activity_segments
      "alpha" (hitSec c1Chunk 110000000) }

def c1RowB : ResultRow :=
  { rowid := 2, content := "ab", rtype := "ocr", chunk_id := 10,
    ts_ms := 40880000,
    score := fallbackScore c1Now (parseQuery c1Args.q) (exactPhraseOf c1Args.q)
      (fbWindowPat c1Args (exactPhraseOf c1Args.q)) c1St.activity_segments
      "ab" (hitSec c1Chunk 40880000) }

/-- C9 fixture: a single matching OCR row in fallback mode. -/
def c9Chunk : Chunk :=
  { id := 10, path := "p", started_at := 3600, duration_ms := 1000 }

def c9Ocr : OcrBlock :=
  { id := 1, chunk_id := 10, ts_ms := 0, text := "hello" }

def c9St : Store :=
  { emptyStore with
    chunks := [c9Chunk], ocr_blocks := [c9Ocr], nextOcrId := 2 }

def c9Now : Int := 200000

def c9Args : SearchArgs :=
  { q := "hello", limit := 20, offset := 0, speaker := none,
    typeFilter := none, dateFrom := some 1, dateTo := none,
    appBundle := none, windowLike := none }

def c9Row : ResultRow :=
  { rowid := 1, content := "hello", rtype := "ocr", chunk_id := 10,
    ts_ms := 0,
    score := fallbackScore c9Now (parseQuery c9Args.q) (exactPhraseOf c9Args.q)
      (fbWindowPat c9Args (exactPhraseOf c9Args.q)) c9St.activity_segments
      "hello" (hitSec c9Chunk 0) }

/-- C2 fixture: an OCR row matching the query, searched in fallback mode
with a speaker filter (and a date filter so the fallback statement
prepares). -/
def c2Chunk : Chunk :=
  { id := 10, path := "p", started_at := 3600, duration_ms := 1000 }

def c2Ocr : OcrBlock :=
  { id := 1, chunk_id := 10, ts_ms := 0, text := "hello" }

def c2St : Store :=
  { emptyStore with chunks := [c2Chunk], ocr_blocks := [c2Ocr], nextOcrId := 2 }

def c2Pl : SearchPayload :=
  { emptyPayload with
    q := QField.str "hello", speaker := some "me", dateFrom := some 1 }

/-- C2 indexed-mode fixture: one mirrored transcript row. -/
def c2Tr : TranscriptRow :=
  { id := 1, chunk_id := 10, ts_ms := 0, speaker := some "me", text := "hello" }

def c2IdxSt : Store :=
  { emptyStore with
    chunks := [c2Chunk], transcripts := [c2Tr],
    fts_content := [{ rowid := 1, content := "hello", ftype := "transcript",
                      chunk_id := 10, ts_ms := 0 }],
    ftsEnabled := true, nextTranscriptId := 2 }

def allMatch : String → String → Bool := fun _ _ => true

def c2IdxArgs : SearchArgs :=
  { q := "hello", limit := 20, offset := 0, speaker := some "me",
    typeFilter := none, dateFrom := some 1, dateTo := none,
    appBundle := none, windowLike := none }

/-- C6 fixture: the spec's own example text and tokens. -/
def c6Toks : List HlTok :=
  [{ text := "cat", star := false }, { text := "mat", star := false }]

def c6Text : String := "the cat sat on the mat"

/-- C6 counterexample fixture: a self-overlapping token. -/
def c6aTok : HlTok := { text := "aa", star := false }

/-- C7 fixture: an FTS-enabled empty store. -/
def c7St : Store := { emptyStore with ftsEnabled := true }

def c7Ops : List InsOp :=
  [InsOp.ocrIns 1 0 "hello", InsOp.trIns 1 500 (some "me") "hello world"]

/-- Concrete two-job queue used to witness C5. -/
def c5Job1 : Job :=
  { id := 1, jtype := "ocr:frame", payload := "p1",
    status := JStatus.queued, attempts := 0, created_at := 10,
    next_run_at := none }

def c5Job2 : Job :=
  { id := 2, jtype := "stt:chunk", payload := "p2",
    status := JStatus.queued, attempts := 0, created_at := 20,
    next_run_at := none }

def c5S0 : QState :=
  { jobs := [c5Job1, c5Job2], nextId := 3, now := 100, hasNextRunCol := true }

def c5S1 : QState :=
  { jobs := [{ c5Job1 with status := JStatus.running }, c5Job2],
    nextId := 3, now := 100, hasNextRunCol := true }

def c5S2 : QState :=
  { jobs := [{ c5Job1 with status := JStatus.running },
             { c5Job2 with status := JStatus.running }],
    nextId := 3, now := 100, hasNextRunCol := true }

/-- Concrete one-job queue used to witness C3. -/
def c3Job : Job :=
  { id := 7, jtype := "stt:chunk", payload := "x",
    status := JStatus.running, attempts := 1, created_at := 5,
    next_run_at := none }

def c3S0 : QState :=
  { jobs := [c3Job], nextId := 8, now := 1000, hasNextRunCol := true }

/-- Concrete queue with a terminally failed job (id 1) used to witness C4. -/
def c4Dead : Job :=
  { id := 1, jtype := "ocr:frame", payload := "d",
    status := JStatus.failed, attempts := 5, created_at := 0,
    next_run_at := none }

def c4Live : Job :=
  { id := 2, jtype := "stt:chunk", payload := "l",
    status := JStatus.queued, attempts := 0, created_at := 5,
    next_run_at := none }

def c4S0 : QState :=
  { jobs := [c4Dead, c4Live], nextId := 3, now := 100, hasNextRunCol := true }

def c4Ops : List QOp :=
  [QOp.failOp okOracle 1 true, QOp.tick 10]

def c4SFin : QState :=
  { jobs := [{ c4Dead with attempts := 6 }, c4Live],
    nextId := 3, now := 110, hasNextRunCol := true }

/-- Concrete state and an all-failing oracle used to witness C8. -/
def c8Bad : DbOracle :=
  { pragmaOk := false, insertOk := false, rowidOk := false,
    selectOk := false, updateOk := false, deleteOk := false }

def c8S0 : QState :=
  { jobs := [c3Job], nextId := 8, now := 1000, hasNextRunCol := true }

/-! ## Queue lemmas and claim theorems -/

theorem pickOldest_mem {l : List Job} {j : Job} (h : pickOldest l = some j) :
    j ∈ l := by
  induction l with
  | nil => simp [pickOldest] at h
  | cons a rest ih =>
    simp only [pickOldest] at h
    cases hr : pickOldest rest with
    | none =>
      rw [hr] at h
      dsimp only at h
      have : a = j := by injection h
      simp [← this]
    | some k =>
      rw [hr] at h
      dsimp only at h
      by_cases hk : k.created_at < a.created_at
      · rw [if_pos hk] at h
        have : k = j := by injection h
        right; exact ih (this ▸ hr)
      · rw [if_neg hk] at h
        have : a = j := by injection h
        simp [← this]

theorem eligible_status {hnr : Bool} {now ma : Nat} {j : Job}
    (h : eligible hnr now ma j = true) :
    j.status = JStatus.queued ∨ j.status = JStatus.delayed := by
  cases hnr with
  | false =>
    simp only [eligible, Bool.and_eq_true, decide_eq_true_eq] at h
    exact Or.inl h.1
  | true =>
    simp only [eligible, Bool.and_eq_true, Bool.or_eq_true,
      decide_eq_true_eq] at h
    exact h.1.1

/-- Destructor for a successful claim: the returned row was an eligible
row of the table and the resulting state marks every row with its id as
running. -/
theorem claimNext_some {o : DbOracle} {ma : Nat} {s s' : QState} {r : Job}
    (h : claimNext o ma s = (some r, s')) :
    r ∈ s.jobs ∧ eligible (hasNextRun o s) s.now ma r = true ∧
      s' = { s with jobs := setRunning s.jobs r.id } := by
  unfold claimNext at h
  cases hs : o.selectOk <;> rw [hs] at h
  · simp at h
  · cases hp : pickOldest (s.jobs.filter (eligible (hasNextRun o s) s.now ma)) <;>
      rw [hp] at h
    · simp at h
    · case true.some row =>
      cases hu : o.updateOk <;> rw [hu] at h
      · simp at h
      · dsimp only at h
        obtain ⟨h1, h2⟩ := Prod.mk.injEq .. ▸ h
        cases h1
        have hmem := pickOldest_mem hp
        rw [List.mem_filter] at hmem
        exact ⟨hmem.1, hmem.2, h2.symm⟩


/-- C5: two sequential `claimNext` calls never return the same job id:
the first call flips its row (every row with that id) to `running`,
which the second call's eligibility predicate excludes. -/
theorem c5_sequential_claims_distinct (o o' : DbOracle) (ma ma' : Nat)
    (s s' s'' : QState) (r r' : Job)
    (h1 : claimNext o ma s = (some r, s'))
    (h2 : claimNext o' ma' s' = (some r', s'')) :
    r'.id ≠ r.id := by
  obtain ⟨_, _, hstate⟩ := claimNext_some h1
  obtain ⟨hmem', helig', _⟩ := claimNext_some h2
  intro heq
  rw [hstate] at hmem'
  simp only [setRunning, List.mem_map] at hmem'
  obtain ⟨a, _, hfa⟩ := hmem'
  by_cases hcase : a.id = r.id
  · simp only [hcase, if_true] at hfa
    have : r'.status = JStatus.running := by rw [← hfa]
    rcases eligible_status helig' with hq | hq <;> rw [hq] at this <;> cases this
  · simp only [hcase, if_false] at hfa
    exact hcase (hfa ▸ heq)

/-- C5 witness: on a concrete two-job queue the first claim takes job 1,
the second claim takes job 2, and by the exclusivity theorem the second
id differs from the first. -/
theorem c5_witness :
    (claimNext okOracle 5 c5S1).1 = some c5Job2 ∧ c5Job2.id ≠ c5Job1.id := by
  refine ⟨by decide, ?_⟩
  exact c5_sequential_claims_distinct okOracle okOracle 5 5 c5S0 c5S1 c5S2
    c5Job1 c5Job2 (by decide) (by decide)

theorem failUpdate_id (hnr : Bool) (now att0 : Nat) (rq : Bool) (x : Job) :
    (failUpdate hnr now att0 rq x).id = x.id := by
  unfold failUpdate
  split
  · rfl
  · split <;> rfl

theorem jobFind_map_update (l : List Job) (id : Nat) (f : Job → Job)
    (hf : ∀ x, (f x).id = x.id) :
    jobFind (l.map (fun x => if x.id = id then f x else x)) id =
      Option.map (fun x => if x.id = id then f x else x) (jobFind l id) := by
  unfold jobFind
  rw [List.find?_map]
  have hpred : ((fun j : Job => decide (j.id = id)) ∘
      (fun x => if x.id = id then f x else x)) =
      (fun j : Job => decide (j.id = id)) := by
    funext x
    show decide ((if x.id = id then f x else x).id = id) = decide (x.id = id)
    by_cases hx : x.id = id
    · rw [if_pos hx]
      simp [hf x, hx]
    · rw [if_neg hx]
  rw [hpred]

/-- C3: under a working storage layer, `fail(id, requeue)` increments the
job's attempt count; if requeue is withheld or the incremented count has
reached 5 the job becomes terminally failed, otherwise it is requeued
with `next_run_at = now + min 60 (2 ^ attempts)` over the incremented
count. -/
theorem c3_fail_backoff (s : QState) (id : Nat) (j : Job) (rq : Bool)
    (hcol : s.hasNextRunCol = true) (hfind : jobFind s.jobs id = some j) :
    ∃ j', jobFind (fail okOracle id rq s).jobs id = some j' ∧
      j'.attempts = j.attempts + 1 ∧
      ((rq = false ∨ 5 ≤ j.attempts + 1) → j'.status = JStatus.failed) ∧
      (rq = true → j.attempts + 1 < 5 →
        j'.status = JStatus.queued ∧
        j'.next_run_at = some (s.now + min 60 (2 ^ (j.attempts + 1)))) := by
  have hnr : hasNextRun okOracle s = true := by
    simp [hasNextRun, okOracle, hcol]
  have hstate : fail okOracle id rq s =
      { s with jobs := s.jobs.map (fun x =>
          if x.id = id then failUpdate true s.now j.attempts rq x else x) } := by
    unfold fail failE
    rw [show okOracle.selectOk = true from rfl,
        show okOracle.updateOk = true from rfl]
    dsimp only
    rw [hfind, hnr]
  refine ⟨failUpdate true s.now j.attempts rq j, ?_, ?_, ?_, ?_⟩
  · rw [hstate]
    simp only
    rw [jobFind_map_update s.jobs id _ (failUpdate_id true s.now j.attempts rq),
      hfind]
    have hid : j.id = id := by
      have := List.find?_some hfind
      simpa using this
    simp [hid]
  · unfold failUpdate
    split
    · rfl
    · split <;> rfl
  · intro hcond
    unfold failUpdate
    rw [if_pos hcond]
  · intro hrq hlt
    have hcond : ¬ (rq = false ∨ 5 ≤ j.attempts + 1) := by
      rintro (h1 | h1)
      · rw [hrq] at h1; cases h1
      · omega
    unfold failUpdate
    rw [if_neg hcond]
    exact ⟨rfl, rfl⟩

/-- C3 witness: failing concrete job 7 (attempts 1) requeues it with
attempts 2 and backoff `min 60 (2 ^ 2)` from `now`. -/
theorem c3_witness :
    ∃ j', jobFind (fail okOracle 7 true c3S0).jobs 7 = some j' ∧
      j'.attempts = c3Job.attempts + 1 ∧
      ((true = false ∨ 5 ≤ c3Job.attempts + 1) → j'.status = JStatus.failed) ∧
      (true = true → c3Job.attempts + 1 < 5 →
        j'.status = JStatus.queued ∧
        j'.next_run_at = some (c3S0.now + min 60 (2 ^ (c3Job.attempts + 1)))) :=
  c3_fail_backoff c3S0 7 c3Job true rfl (by decide)

theorem deadInv_step {jid : Nat} {s : QState} (h : DeadInv jid s) (op : QOp) :
    DeadInv jid (stepOp s op) := by
  obtain ⟨h1, h2, h3⟩ := h
  cases op with
  | tick dt => exact ⟨h1, h2, h3⟩
  | enq o t p d =>
    show DeadInv jid (enqueue o t p d s).2
    have hgoal : DeadInv jid
        { s with jobs := s.jobs ++ [enqRow o t p d s], nextId := s.nextId + 1 } := by
      refine ⟨Nat.lt_succ_of_lt h1, ?_, ?_⟩
      · intro j hj
        rcases List.mem_append.mp hj with hj | hj
        · exact Nat.lt_succ_of_lt (h2 j hj)
        · simp only [List.mem_singleton] at hj
          rw [hj]
          exact Nat.lt_succ_self _
      · intro j hj hjid
        rcases List.mem_append.mp hj with hj | hj
        · exact h3 j hj hjid
        · simp only [List.mem_singleton] at hj
          rw [hj] at hjid
          have hrowid : (enqRow o t p d s).id = s.nextId := rfl
          rw [hrowid] at hjid
          omega
    unfold enqueue enqueueE
    cases o.insertOk
    · exact ⟨h1, h2, h3⟩
    · dsimp only
      cases o.rowidOk
      · exact hgoal
      · exact hgoal
  | claim o ma =>
    show DeadInv jid (claimNext o ma s).2
    unfold claimNext
    cases o.selectOk
    · exact ⟨h1, h2, h3⟩
    · cases hp : pickOldest (s.jobs.filter (eligible (hasNextRun o s) s.now ma)) with
      | none => exact ⟨h1, h2, h3⟩
      | some row =>
        cases o.updateOk
        · exact ⟨h1, h2, h3⟩
        · have hrowmem0 := pickOldest_mem hp
          rw [List.mem_filter] at hrowmem0
          refine ⟨h1, ?_, ?_⟩
          · intro j hj
            simp only [setRunning, List.mem_map] at hj
            obtain ⟨a, ha, hfa⟩ := hj
            subst hfa
            by_cases hc : a.id = row.id
            · rw [if_pos hc]
              exact h2 a ha
            · rw [if_neg hc]
              exact h2 a ha
          · intro j hj hjid
            simp only [setRunning, List.mem_map] at hj
            obtain ⟨a, ha, hfa⟩ := hj
            subst hfa
            by_cases hc : a.id = row.id
            · exfalso
              rw [if_pos hc] at hjid
              have haid : a.id = jid := hjid
              have hrowid : row.id = jid := by rw [← hc]; exact haid
              have hdrow := h3 row hrowmem0.1 hrowid
              rcases eligible_status hrowmem0.2 with hq | hq <;>
                rw [hdrow.1] at hq <;> cases hq
            · rw [if_neg hc] at hjid ⊢
              exact h3 a ha hjid
  | compl o id =>
    show DeadInv jid (complete o id s)
    unfold complete completeE
    cases o.deleteOk
    · exact ⟨h1, h2, h3⟩
    · refine ⟨h1, ?_, ?_⟩
      · intro j hj
        exact h2 j (List.mem_filter.mp hj).1
      · intro j hj
        exact h3 j (List.mem_filter.mp hj).1
  | failOp o id rq =>
    show DeadInv jid (fail o id rq s)
    unfold fail failE
    cases o.selectOk
    · exact ⟨h1, h2, h3⟩
    · dsimp only
      cases o.updateOk
      · exact ⟨h1, h2, h3⟩
      · refine ⟨h1, ?_, ?_⟩
        · intro j hj
          rw [List.mem_map] at hj
          obtain ⟨a, ha, hfa⟩ := hj
          subst hfa
          by_cases hc : a.id = id
          · rw [if_pos hc, failUpdate_id]
            exact h2 a ha
          · rw [if_neg hc]
            exact h2 a ha
        · intro j hj hjid
          rw [List.mem_map] at hj
          obtain ⟨a, ha, hfa⟩ := hj
          subst hfa
          by_cases hc : a.id = id
          · rw [if_pos hc] at hjid ⊢
            rw [failUpdate_id] at hjid
            have hid0 : id = jid := by rw [← hc]; exact hjid
            have hsome : (List.find? (fun x => decide (x.id = id)) s.jobs).isSome = true := by
              rw [List.find?_isSome]
              exact ⟨a, ha, by simp [hc]⟩
            cases hx : List.find? (fun x => decide (x.id = id)) s.jobs with
            | none => rw [hx] at hsome; cases hsome
            | some r =>
              have hrmem := List.mem_of_find?_eq_some hx
              have hrid : r.id = id := by
                have := List.find?_some hx
                simpa using this
              have hrdead := h3 r hrmem (hrid.trans hid0)
              have hatt : (match jobFind s.jobs id with
                  | some r => r.attempts
                  | none => 0) = r.attempts := by
                unfold jobFind
                rw [hx]
              rw [hatt]
              unfold failUpdate
              rw [if_pos (Or.inr (by omega))]
              refine ⟨rfl, ?_⟩
              show 5 ≤ r.attempts + 1
              omega
          · rw [if_neg hc] at hjid ⊢
            exact h3 a ha hjid

theorem deadInv_run {jid : Nat} {s : QState} (h : DeadInv jid s)
    (ops : List QOp) : DeadInv jid (runOps s ops) := by
  induction ops generalizing s with
  | nil => exact h
  | cons op rest ih => exact ih (deadInv_step h op)

/-- C4: once a job is terminally failed (attempts at the maximum), no
subsequent `claimNext` — after any further sequence of enqueue, claim,
complete and fail operations — ever returns that job's id again. -/
theorem c4_failed_never_reclaimed (s : QState) (jid : Nat) (ops : List QOp)
    (o : DbOracle) (ma : Nat) (r : Job) (s2 : QState)
    (hinv : DeadInv jid s)
    (hclaim : claimNext o ma (runOps s ops) = (some r, s2)) :
    r.id ≠ jid := by
  have hinv' := deadInv_run hinv ops
  obtain ⟨hmem, helig, _⟩ := claimNext_some hclaim
  intro heq
  have hdead := hinv'.2.2 r hmem heq
  rcases eligible_status helig with hq | hq <;>
    rw [hdead.1] at hq <;> cases hq

/-- C4 witness: job 1 is failed with 5 attempts; after a further fail and
a clock tick, a claim returns job 2, whose id is not 1. -/
theorem c4_witness :
    (claimNext okOracle 5 (runOps c4S0 c4Ops)).1 =
        some c4Live ∧ c4Live.id ≠ 1 := by
  refine ⟨by decide, ?_⟩
  exact c4_failed_never_reclaimed c4S0 1 c4Ops okOracle 5 c4Live
    { c4SFin with jobs := [{ c4Dead with attempts := 6 },
        { c4Live with status := JStatus.running }] }
    (by unfold DeadInv; decide) (by decide)

/-- C8: storage errors never escape the queue API: a failing statement
inside `enqueue` yields `null` (success yields the fresh row id), and a
failing statement inside `complete` or `fail` leaves the table unchanged
(no-op), the exception being swallowed in every case. -/
theorem c8_best_effort (o : DbOracle) (s : QState) (t p : String) (d : Int)
    (id : Nat) (rq : Bool) :
    ((enqueueE o t p d s).1.isOk = false → (enqueue o t p d s).1 = none) ∧
    ((enqueueE o t p d s).1.isOk = true → (enqueue o t p d s).1 = some s.nextId) ∧
    ((completeE o id s).1.isOk = false → complete o id s = s) ∧
    ((failE o id rq s).1.isOk = false → fail o id rq s = s) := by
  refine ⟨?_, ?_, ?_, ?_⟩
  · intro hf
    unfold enqueue
    cases hx : enqueueE o t p d s with
    | mk r s' =>
      cases r with
      | ok v => rw [hx] at hf; simp [Except.isOk, Except.toBool] at hf
      | error e => rfl
  · intro hf
    unfold enqueueE at hf
    unfold enqueue enqueueE
    cases hins : o.insertOk
    · rw [hins] at hf
      simp [Except.isOk, Except.toBool] at hf
    · dsimp only
      cases hrow : o.rowidOk
      · rw [hins, hrow] at hf
        simp [Except.isOk, Except.toBool] at hf
      · rfl
  · intro hf
    unfold completeE at hf
    unfold complete completeE
    cases hd : o.deleteOk
    · rfl
    · rw [hd] at hf
      simp [Except.isOk, Except.toBool] at hf
  · intro hf
    unfold failE at hf
    unfold fail failE
    cases hs : o.selectOk
    · rfl
    · dsimp only
      cases hu : o.updateOk
      · rfl
      · rw [hs, hu] at hf
        simp [Except.isOk, Except.toBool] at hf

/-- C8 witness: under the all-failing oracle, enqueue returns `null` and
complete/fail are no-ops; under the all-succeeding oracle, enqueue
returns the fresh id. -/
theorem c8_witness :
    (enqueue c8Bad "t" "p" 0 c8S0).1 = none ∧
    complete c8Bad 7 c8S0 = c8S0 ∧
    fail c8Bad 7 true c8S0 = c8S0 ∧
    (enqueue okOracle "t" "p" 0 c8S0).1 = some c8S0.nextId := by
  refine ⟨?_, ?_, ?_, ?_⟩
  · exact (c8_best_effort c8Bad c8S0 "t" "p" 0 7 true).1 (by decide)
  · exact (c8_best_effort c8Bad c8S0 "t" "p" 0 7 true).2.2.1 (by decide)
  · exact (c8_best_effort c8Bad c8S0 "t" "p" 0 7 true).2.2.2 (by decide)
  · exact (c8_best_effort okOracle c8S0 "t" "p" 0 7 true).2.1 (by decide)

/-- C10: a query that is missing, not a string, or trims to the empty
string makes both search and searchSnippets return the empty list, for
every store, clock, engine oracle, filter set and pagination — in
particular independently of the store. -/
theorem c10_empty_query_guard (pl : SearchPayload) (st : Store) (now : Int)
    (mtch : String → String → Bool) (bm : FtsRow → ℚ) (snip : FtsRow → String)
    (h : qTrimmed pl.q = "") :
    recallosSearch pl st now mtch bm = [] ∧
    recallosSearchSnippets pl st now mtch bm snip = [] := by
  constructor
  · unfold recallosSearch normalizeArgs
    simp [h]
  · unfold recallosSearchSnippets normalizeArgs
    simp [h]

/-- C10 witness: a whitespace-only query returns [] from both handlers
on a concrete store. -/
theorem c10_witness :
    recallosSearch c10Payload c1St c1Now noMatch zeroBm = [] ∧
    recallosSearchSnippets c10Payload c1St c1Now noMatch zeroBm noSnip = [] :=
  c10_empty_query_guard c10Payload c1St c1Now noMatch zeroBm noSnip (by decide)

theorem mirrored_applyIns {st : Store} (h : Mirrored st) (op : InsOp) :
    Mirrored (applyIns st op) := by
  cases op with
  | ocrIns cid ts text =>
    show Mirrored (insertOcrBlock st cid ts text)
    intro hfts
    have hfts0 : st.ftsEnabled = true := hfts
    obtain ⟨ho, ht⟩ := h hfts0
    have hset : (insertOcrBlock st cid ts text).fts_content =
        st.fts_content ++ [ocrMirrorRow st cid ts text] := by
      simp only [insertOcrBlock]
      rw [if_pos hfts0]
    constructor
    · intro o hmem
      rw [hset]
      have hmem' : o ∈ st.ocr_blocks ++
          [({ id := st.nextOcrId, chunk_id := cid, ts_ms := ts,
              text := text } : OcrBlock)] := hmem
      rcases List.mem_append.mp hmem' with hcase | hcase
      · obtain ⟨f, hf, hprops⟩ := ho o hcase
        exact ⟨f, List.mem_append.mpr (Or.inl hf), hprops⟩
      · simp only [List.mem_singleton] at hcase
        refine ⟨ocrMirrorRow st cid ts text,
          List.mem_append.mpr (Or.inr (List.mem_singleton.mpr rfl)), ?_⟩
        rw [hcase]
        exact ⟨rfl, rfl, rfl, rfl, rfl⟩
    · intro t hmem
      rw [hset]
      obtain ⟨f, hf, hprops⟩ := ht t hmem
      exact ⟨f, List.mem_append.mpr (Or.inl hf), hprops⟩
  | trIns cid ts sp text =>
    show Mirrored (insertTranscript st cid ts sp text)
    intro hfts
    have hfts0 : st.ftsEnabled = true := hfts
    obtain ⟨ho, ht⟩ := h hfts0
    have hset : (insertTranscript st cid ts sp text).fts_content =
        st.fts_content ++ [trMirrorRow st cid ts text] := by
      simp only [insertTranscript]
      rw [if_pos hfts0]
    constructor
    · intro o hmem
      rw [hset]
      obtain ⟨f, hf, hprops⟩ := ho o hmem
      exact ⟨f, List.mem_append.mpr (Or.inl hf), hprops⟩
    · intro t hmem
      rw [hset]
      have hmem' : t ∈ st.transcripts ++
          [({ id := st.nextTranscriptId, chunk_id := cid, ts_ms := ts,
              speaker := sp, text := text } : TranscriptRow)] := hmem
      rcases List.mem_append.mp hmem' with hcase | hcase
      · obtain ⟨f, hf, hprops⟩ := ht t hcase
        exact ⟨f, List.mem_append.mpr (Or.inl hf), hprops⟩
      · simp only [List.mem_singleton] at hcase
        refine ⟨trMirrorRow st cid ts text,
          List.mem_append.mpr (Or.inr (List.mem_singleton.mpr rfl)), ?_⟩
        rw [hcase]
        exact ⟨rfl, rfl, rfl, rfl, rfl⟩

/-- C7: with the full-text index enabled, every insert of an extracted
block mirrors it into fts_content in the same logical operation with the
index row's rowid equal to the base row's id, so after any sequence of
inserts every block has a mirrored entry of the same row identity. -/
theorem c7_fts_mirror (st : Store) (ops : List InsOp) (h : Mirrored st) :
    Mirrored (applyInsList st ops) := by
  induction ops generalizing st with
  | nil => exact h
  | cons op rest ih => exact ih _ (mirrored_applyIns h op)

/-- C7 witness: after inserting one OCR block and one transcript line
into an FTS-enabled empty store, the mirror invariant holds. -/
theorem c7_witness : Mirrored (applyInsList c7St c7Ops) :=
  c7_fts_mirror c7St c7Ops (by unfold Mirrored; decide)

/-! ## Generic facts about the insertion-sort model of ORDER BY -/

theorem mem_insertLe {α : Type} (le : α → α → Bool) (x y : α) (l : List α) :
    y ∈ insertLe le x l ↔ y = x ∨ y ∈ l := by
  induction l with
  | nil => simp [insertLe]
  | cons a rest ih =>
    unfold insertLe
    by_cases hc : le x a = true
    · rw [if_pos hc]
      simp
    · rw [if_neg hc]
      simp [ih]
      tauto

theorem mem_isort {α : Type} (le : α → α → Bool) (y : α) (l : List α) :
    y ∈ isort le l ↔ y ∈ l := by
  induction l with
  | nil => simp [isort]
  | cons a rest ih =>
    unfold isort
    rw [mem_insertLe, ih]
    simp

theorem mem_paginate {lim off : Int} {l : List ResultRow} {r : ResultRow}
    (h : r ∈ paginate lim off l) : r ∈ l := by
  unfold paginate at h
  exact List.mem_of_mem_drop (List.mem_of_mem_take h)

/-! ## C9: the fallback score -/

theorem groupIndicatorSum_eq (g : List String) (text : String) :
    groupIndicatorSum g text =
      (1/10 : ℚ) * ((g.filter (fun t => tokenMatches t text)).length : ℚ) := by
  induction g with
  | nil => simp [groupIndicatorSum]
  | cons tk ts ih =>
    unfold groupIndicatorSum at ih ⊢
    rw [List.foldr_cons, ih]
    by_cases hc : tokenMatches tk text = true
    · rw [if_pos hc]
      have hf : List.filter (fun t => tokenMatches t text) (tk :: ts) =
          tk :: List.filter (fun t => tokenMatches t text) ts := by
        simp [List.filter_cons, hc]
      rw [hf, List.length_cons]
      push_cast
      ring
    · rw [if_neg hc]
      have hf : List.filter (fun t => tokenMatches t text) (tk :: ts) =
          List.filter (fun t => tokenMatches t text) ts := by
        simp [List.filter_cons, hc]
      rw [hf]
      ring

theorem groupsIndicator_eq (groups : List (List String)) (text : String) :
    groupsIndicator groups text =
      (1/10 : ℚ) * (countMatchingTokens groups text : ℚ) := by
  unfold countMatchingTokens
  cases groups with
  | nil => simp [groupsIndicator]
  | cons g gs =>
    show (g :: gs).foldr (fun g acc => groupIndicatorSum g text + acc) 0 = _
    induction (g :: gs) with
    | nil => simp
    | cons a rest ih =>
      rw [List.foldr_cons, ih, groupIndicatorSum_eq, List.map_cons,
        List.sum_cons]
      push_cast
      ring

/-- C9: in fallback mode a candidate row's score is exactly the sum of
the 0.7-weighted recency term, the 0.3 window bonus, the 0.5 first
quoted-phrase bonus, and 0.1 per matching query token over every token
of every AND-group, with the engine relevance slot replaced by 0 — and
every row produced by the fallback query carries that score evaluated at
its own text and hit time. -/
theorem c9_fallback_score :
    (∀ (now : Int) (groups : List (List String)) (ep windowPat text : String)
        (segs : List ActivitySeg) (h : ℚ),
      fallbackScore now groups ep windowPat segs text h =
        (7/10 : ℚ) * (1 / (1 + (((now : ℚ) - h) / 86400)))
        + (if windowMatchExists segs windowPat h then (3/10 : ℚ) else 0)
        + (if ep ≠ "" ∧ likeContains ep text = true then (1/2 : ℚ) else 0)
        + (1/10 : ℚ) * (countMatchingTokens groups text : ℚ)) ∧
    (∀ (st : Store) (now : Int) (a : SearchArgs) (r : ResultRow),
      r ∈ fallbackSearch st now a →
      ∃ c ∈ st.chunks, c.id = r.chunk_id ∧
        r.score = fallbackScore now (parseQuery a.q) (exactPhraseOf a.q)
          (fbWindowPat a (exactPhraseOf a.q)) st.activity_segments r.content
          (hitSec c r.ts_ms)) := by
  constructor
  · intro now groups ep windowPat text segs h
    unfold fallbackScore recencyTerm
    rw [groupsIndicator_eq]
    ring
  · intro st now a r hr
    unfold fallbackSearch at hr
    split at hr
    case isFalse => cases hr
    case isTrue =>
      have hr2 := (mem_isort _ _ _).mp (mem_paginate hr)
      rcases List.mem_append.mp hr2 with hc | hc
      · unfold fallbackOcrRows at hc
        split at hc
        case isFalse => cases hc
        case isTrue =>
          obtain ⟨o, ho, heq⟩ := List.mem_filterMap.mp hc
          cases hcf : chunkFind st o.chunk_id with
          | none => rw [hcf] at heq; cases heq
          | some c =>
            rw [hcf, Option.ite_none_right_eq_some] at heq
            obtain ⟨hP, hrow⟩ := heq
            have hrow' := Option.some.inj hrow
            have hcmem := List.mem_of_find?_eq_some hcf
            have hcid : c.id = o.chunk_id := by
              have := List.find?_some hcf
              simpa using this
            rw [← hrow']
            exact ⟨c, hcmem, hcid, rfl⟩
      · unfold fallbackTranscriptRows at hc
        split at hc
        case isFalse => cases hc
        case isTrue =>
          obtain ⟨t, ht, heq⟩ := List.mem_filterMap.mp hc
          cases hcf : chunkFind st t.chunk_id with
          | none => rw [hcf] at heq; cases heq
          | some c =>
            rw [hcf, Option.ite_none_right_eq_some] at heq
            obtain ⟨hP, hrow⟩ := heq
            have hrow' := Option.some.inj hrow
            have hcmem := List.mem_of_find?_eq_some hcf
            have hcid : c.id = t.chunk_id := by
              have := List.find?_some hcf
              simpa using this
            rw [← hrow']
            exact ⟨c, hcmem, hcid, rfl⟩

/-- C9 witness: the single fallback row of a concrete store carries the
four-signal score at its own text and hit time. -/
theorem c9_witness :
    ∃ c ∈ c9St.chunks, c.id = c9Row.chunk_id ∧
      c9Row.score = fallbackScore c9Now (parseQuery c9Args.q)
        (exactPhraseOf c9Args.q) (fbWindowPat c9Args (exactPhraseOf c9Args.q))
        c9St.activity_segments c9Row.content (hitSec c c9Row.ts_ms) :=
  c9_fallback_score.2 c9St c9Now c9Args c9Row
    (by exact List.mem_singleton.mpr rfl)

/-! ## C1: pagination clamps and the two ORDER BY shapes -/

theorem pairwise_insertLe {α : Type} {le : α → α → Bool}
    (htot : ∀ a b, le a b = true ∨ le b a = true)
    (htrans : ∀ a b c, le a b = true → le b c = true → le a c = true)
    (x : α) {l : List α} (hl : l.Pairwise (fun a b => le a b = true)) :
    (insertLe le x l).Pairwise (fun a b => le a b = true) := by
  induction l with
  | nil => simp [insertLe]
  | cons a rest ih =>
    rw [List.pairwise_cons] at hl
    obtain ⟨ha, hrest⟩ := hl
    unfold insertLe
    by_cases hc : le x a = true
    · rw [if_pos hc]
      rw [List.pairwise_cons]
      refine ⟨?_, List.pairwise_cons.mpr ⟨ha, hrest⟩⟩
      intro b hb
      rcases List.mem_cons.mp hb with hb | hb
      · exact hb ▸ hc
      · exact htrans x a b hc (ha b hb)
    · rw [if_neg hc]
      rw [List.pairwise_cons]
      refine ⟨?_, ih hrest⟩
      intro b hb
      rcases (mem_insertLe le x b rest).mp hb with hb | hb
      · rcases htot x a with h | h
        · exact absurd h hc
        · exact hb ▸ h
      · exact ha b hb

theorem pairwise_isort {α : Type} {le : α → α → Bool}
    (htot : ∀ a b, le a b = true ∨ le b a = true)
    (htrans : ∀ a b c, le a b = true → le b c = true → le a c = true)
    (l : List α) :
    (isort le l).Pairwise (fun a b => le a b = true) := by
  induction l with
  | nil => exact List.Pairwise.nil
  | cons a rest ih => exact pairwise_insertLe htot htrans a ih

theorem idxLe_total (x y : ResultRow) : idxLe x y = true ∨ idxLe y x = true := by
  unfold idxLe
  simp only [Bool.or_eq_true, Bool.and_eq_true, decide_eq_true_eq]
  rcases lt_trichotomy x.score y.score with h | h | h
  · exact Or.inr (Or.inl h)
  · rcases le_total y.rowid x.rowid with h2 | h2
    · exact Or.inl (Or.inr ⟨h, h2⟩)
    · exact Or.inr (Or.inr ⟨h.symm, h2⟩)
  · exact Or.inl (Or.inl h)

theorem idxLe_trans (a b c : ResultRow) (hab : idxLe a b = true)
    (hbc : idxLe b c = true) : idxLe a c = true := by
  unfold idxLe at *
  simp only [Bool.or_eq_true, Bool.and_eq_true, decide_eq_true_eq] at *
  rcases hab with h1 | ⟨h1, h1'⟩ <;> rcases hbc with h2 | ⟨h2, h2'⟩
  · exact Or.inl (lt_trans h2 h1)
  · exact Or.inl (by rw [← h2]; exact h1)
  · exact Or.inl (by rw [h1]; exact h2)
  · exact Or.inr ⟨h1.trans h2, le_trans h2' h1'⟩

theorem fbLe_total (x y : ResultRow) : fbLe x y = true ∨ fbLe y x = true := by
  unfold fbLe
  simp only [Bool.or_eq_true, Bool.and_eq_true, decide_eq_true_eq]
  rcases lt_trichotomy x.score y.score with h | h | h
  · exact Or.inr (Or.inl h)
  · rcases le_total y.ts_ms x.ts_ms with h2 | h2
    · exact Or.inl (Or.inr ⟨h, h2⟩)
    · exact Or.inr (Or.inr ⟨h.symm, h2⟩)
  · exact Or.inl (Or.inl h)

theorem fbLe_trans (a b c : ResultRow) (hab : fbLe a b = true)
    (hbc : fbLe b c = true) : fbLe a c = true := by
  unfold fbLe at *
  simp only [Bool.or_eq_true, Bool.and_eq_true, decide_eq_true_eq] at *
  rcases hab with h1 | ⟨h1, h1'⟩ <;> rcases hbc with h2 | ⟨h2, h2'⟩
  · exact Or.inl (lt_trans h2 h1)
  · exact Or.inl (by rw [← h2]; exact h1)
  · exact Or.inl (by rw [h1]; exact h2)
  · exact Or.inr ⟨h1.trans h2, le_trans h2' h1'⟩

theorem pairwise_paginate {le : ResultRow → ResultRow → Bool}
    {l : List ResultRow} (h : l.Pairwise (fun a b => le a b = true))
    (lim off : Int) :
    (paginate lim off l).Pairwise (fun a b => le a b = true) := by
  unfold paginate
  exact List.Pairwise.sublist
    ((List.take_sublist _ _).trans (List.drop_sublist _ _)) h

/-- C1 (amended): both modes clamp limit into [1,100] and offset to ≥ 0,
and each mode's rows are sorted by score descending — but the tiebreaks
differ: rowid descending in indexed mode, ts_ms descending in fallback
mode (`ORDER BY score DESC, ts_ms DESC`), so the two orders are not
identical. -/
theorem c1_pagination_and_ordering :
    (∀ v : Option Int, 1 ≤ limitOf v ∧ limitOf v ≤ 100) ∧
    (∀ v : Option Int, 0 ≤ offsetOf v) ∧
    (∀ (st : Store) (now : Int) (a : SearchArgs)
        (mtch : String → String → Bool) (bm : FtsRow → ℚ),
      (indexedSearch st now a mtch bm).Pairwise
        (fun x y => idxLe x y = true)) ∧
    (∀ (st : Store) (now : Int) (a : SearchArgs),
      (fallbackSearch st now a).Pairwise (fun x y => fbLe x y = true)) := by
  refine ⟨?_, ?_, ?_, ?_⟩
  · intro v
    constructor
    · exact le_max_left _ _
    · exact max_le (by norm_num) (min_le_left _ _)
  · intro v
    exact le_max_left _ _
  · intro st now a mtch bm
    unfold indexedSearch
    exact pairwise_paginate (pairwise_isort idxLe_total idxLe_trans _) _ _
  · intro st now a
    unfold fallbackSearch
    split
    · exact pairwise_paginate (pairwise_isort fbLe_total fbLe_trans _) _ _
    · exact List.Pairwise.nil

theorem c1RowA_score : c1RowA.score = 9/20 := by
  have hg : parseQuery c1Args.q = [["a"], ["b"]] := by decide
  have he : exactPhraseOf c1Args.q = "" := by decide
  have hw : fbWindowPat c1Args "" = "a OR b" := by decide
  have ht1 : tokenMatches "a" "alpha" = true := by decide
  have ht2 : tokenMatches "b" "alpha" = false := by decide
  show fallbackScore c1Now (parseQuery c1Args.q) (exactPhraseOf c1Args.q)
      (fbWindowPat c1Args (exactPhraseOf c1Args.q)) c1St.activity_segments
      "alpha" (hitSec c1Chunk 110000000) = 9/20
  rw [hg, he, hw]
  norm_num [fallbackScore, recencyTerm, hitSec, groupsIndicator,
    groupIndicatorSum, windowMatchExists, c1St, emptyStore, c1Chunk, c1Now,
    ht1, ht2]

theorem c1RowB_score : c1RowB.score = 9/20 := by
  have hg : parseQuery c1Args.q = [["a"], ["b"]] := by decide
  have he : exactPhraseOf c1Args.q = "" := by decide
  have hw : fbWindowPat c1Args "" = "a OR b" := by decide
  have ht1 : tokenMatches "a" "ab" = true := by decide
  have ht2 : tokenMatches "b" "ab" = true := by decide
  show fallbackScore c1Now (parseQuery c1Args.q) (exactPhraseOf c1Args.q)
      (fbWindowPat c1Args (exactPhraseOf c1Args.q)) c1St.activity_segments
      "ab" (hitSec c1Chunk 40880000) = 9/20
  rw [hg, he, hw]
  norm_num [fallbackScore, recencyTerm, hitSec, groupsIndicator,
    groupIndicatorSum, windowMatchExists, c1St, emptyStore, c1Chunk, c1Now,
    ht1, ht2]

theorem c1_output :
    recallosSearch c1Pl c1St c1Now noMatch zeroBm = [c1RowA, c1RowB] := by
  have h1 : recallosSearch c1Pl c1St c1Now noMatch zeroBm =
      paginate c1Args.limit c1Args.offset (isort fbLe [c1RowA, c1RowB]) := rfl
  have hle : fbLe c1RowA c1RowB = true := by
    unfold fbLe
    simp only [Bool.or_eq_true, Bool.and_eq_true, decide_eq_true_eq]
    refine Or.inr ⟨?_, by decide⟩
    rw [c1RowA_score, c1RowB_score]
  have h2 : isort fbLe [c1RowA, c1RowB] = [c1RowA, c1RowB] := by
    show insertLe fbLe c1RowA (insertLe fbLe c1RowB (isort fbLe [])) = _
    rw [show isort fbLe ([] : List ResultRow) = [] from rfl]
    show (if fbLe c1RowA c1RowB = true then _ else _) = _
    rw [if_pos hle]
  rw [h1, h2]
  rfl

/-- C1 counterexample: on a concrete store the fallback search returns
two equal-score rows in ts_ms-descending order (ids [1, 2]), which is
not sorted by score descending with row id descending as the tiebreak —
refuting the claimed identical (score DESC, id DESC) ordering of the two
modes. -/
theorem c1_counterexample :
    ¬ (recallosSearch c1Pl c1St c1Now noMatch zeroBm).Pairwise
      (fun x y => y.score < x.score ∨ (x.score = y.score ∧ y.rowid < x.rowid)) := by
  rw [c1_output]
  intro hpw
  have hrel := (List.pairwise_cons.mp hpw).1 c1RowB (List.mem_singleton.mpr rfl)
  rcases hrel with h | ⟨_, h⟩
  · rw [c1RowA_score, c1RowB_score] at h
    exact lt_irrefl _ h
  · have h2 : (2 : Nat) < 1 := h
    omega

/-! ## C2: the speaker filter and content kinds -/

/-- C2 (amended): with a speaker filter, indexed mode returns transcript
rows only (the query is rebuilt over an INNER JOIN with transcripts on
`f.type = 'transcript'`); in fallback mode only the transcript arm of
the UNION applies the speaker predicate — a transcript-kind result always
comes from a row with the filtered speaker, but the OCR arm is not
restricted, so OCR rows may still be returned. -/
theorem c2_speaker_restricts (st : Store) (now : Int) (a : SearchArgs)
    (mtch : String → String → Bool) (bm : FtsRow → ℚ) (sp : String)
    (hsp : a.speaker = some sp) :
    (∀ r ∈ indexedSearch st now a mtch bm, r.rtype = "transcript") ∧
    (∀ r ∈ fallbackSearch st now a, r.rtype = "transcript" →
      ∃ t ∈ st.transcripts, t.id = r.rowid ∧ t.speaker = some sp) := by
  constructor
  · intro r hr
    unfold indexedSearch at hr
    have hr2 := (mem_isort _ _ _).mp (mem_paginate hr)
    unfold indexedCandidates at hr2
    rw [hsp] at hr2
    obtain ⟨f, hf, heq⟩ := List.mem_filterMap.mp hr2
    by_cases hft : f.ftype = "transcript"
    · rw [if_pos hft] at heq
      cases h1 : st.transcripts.find? (fun t => t.id = f.rowid) with
      | none => rw [h1] at heq; cases heq
      | some t =>
        cases h2 : chunkFind st f.chunk_id with
        | none => rw [h1, h2] at heq; cases heq
        | some c =>
          rw [h1, h2, Option.ite_none_right_eq_some] at heq
          obtain ⟨hP, hrow⟩ := heq
          rw [← Option.some.inj hrow]
          exact hft
    · rw [if_neg hft] at heq
      cases heq
  · intro r hr hkind
    unfold fallbackSearch at hr
    split at hr
    case isFalse => cases hr
    case isTrue =>
      have hr2 := (mem_isort _ _ _).mp (mem_paginate hr)
      rcases List.mem_append.mp hr2 with hc | hc
      · exfalso
        unfold fallbackOcrRows at hc
        split at hc
        case isFalse => cases hc
        case isTrue =>
          obtain ⟨o, ho, heq⟩ := List.mem_filterMap.mp hc
          cases hcf : chunkFind st o.chunk_id with
          | none => rw [hcf] at heq; cases heq
          | some c =>
            rw [hcf, Option.ite_none_right_eq_some] at heq
            obtain ⟨hP, hrow⟩ := heq
            have : r.rtype = "ocr" := by
              rw [← Option.some.inj hrow]
            rw [this] at hkind
            exact absurd hkind (by decide)
      · unfold fallbackTranscriptRows at hc
        split at hc
        case isFalse => cases hc
        case isTrue =>
          obtain ⟨t, ht, heq⟩ := List.mem_filterMap.mp hc
          cases hcf : chunkFind st t.chunk_id with
          | none => rw [hcf] at heq; cases heq
          | some c =>
            rw [hcf, Option.ite_none_right_eq_some] at heq
            obtain ⟨hP, hrow⟩ := heq
            obtain ⟨_, hspk, _⟩ := hP
            rw [hsp] at hspk
            simp only [decide_eq_true_eq] at hspk
            refine ⟨t, ht, ?_, hspk⟩
            rw [← Option.some.inj hrow]

/-- C2 witness: on a concrete FTS-enabled store with a speaker filter,
every indexed row is a transcript row, and every fallback transcript-kind
row carries the filtered speaker. -/
theorem c2_witness :
    (∀ r ∈ indexedSearch c2IdxSt 0 c2IdxArgs allMatch zeroBm,
      r.rtype = "transcript") ∧
    (∀ r ∈ fallbackSearch c2IdxSt 0 c2IdxArgs, r.rtype = "transcript" →
      ∃ t ∈ c2IdxSt.transcripts, t.id = r.rowid ∧ t.speaker = some "me") :=
  c2_speaker_restricts c2IdxSt 0 c2IdxArgs allMatch zeroBm "me" rfl

/-- C2 counterexample: in fallback mode with a speaker filter (plus a
date filter so the statement prepares), a matching OCR row is returned —
refuting "no OCR row is ever returned when a speaker filter is
present". -/
theorem c2_counterexample :
    (normalizeArgs c2Pl).speaker = some "me" ∧
    (recallosSearch c2Pl c2St 200000 noMatch zeroBm).map (fun r => r.rtype) =
      ["ocr"] := by
  constructor
  · rfl
  · rfl

/-! ## C6: the highlighter's range merging -/

theorem rangeLe_total (a b : Nat × Nat) :
    rangeLe a b = true ∨ rangeLe b a = true := by
  unfold rangeLe
  simp only [decide_eq_true_eq]
  omega

theorem rangeLe_trans (a b c : Nat × Nat) (h1 : rangeLe a b = true)
    (h2 : rangeLe b c = true) : rangeLe a c = true := by
  unfold rangeLe at *
  simp only [decide_eq_true_eq] at *
  omega

theorem toList_ne_nil {s : String} (h : s ≠ "") : s.toList ≠ [] := by
  intro hc
  apply h
  cases s with
  | mk data =>
    simp [String.toList] at hc
    rw [hc]

theorem scanAux_wf (star : Bool) (tok text : List Char) (htok : tok ≠ []) :
    ∀ (fuel p : Nat), ∀ r ∈ scanAux star tok text p fuel, r.1 < r.2 := by
  intro fuel
  induction fuel with
  | zero =>
    intro p r hr
    simp [scanAux] at hr
  | succ fuel ih =>
    intro p r hr
    unfold scanAux at hr
    split at hr
    · cases hm : matchLenAt star tok text p with
      | none => rw [hm] at hr; exact ih _ r hr
      | some len =>
        rw [hm] at hr
        rcases List.mem_cons.mp hr with hcase | hcase
        · have hlen : tok.length ≤ len := by
            unfold matchLenAt at hm
            split at hm
            · have := Option.some.inj hm
              omega
            · cases hm
          have hpos : 0 < tok.length := List.length_pos.mpr htok
          rw [hcase]
          show p < p + len
          omega
        · exact ih _ r hcase
    · cases hr

theorem tokRanges_wf (text : String) (tk : HlTok) :
    ∀ r ∈ tokRanges text tk, r.1 < r.2 := by
  intro r hr
  unfold tokRanges at hr
  split at hr
  · cases hr
  case isFalse hne =>
    refine scanAux_wf tk.star (lowerList tk.text) (lowerList text) ?_ _ _ r hr
    intro hc
    unfold lowerList at hc
    rw [List.map_eq_nil_iff] at hc
    exact toList_ne_nil hne hc

theorem allRanges_wf (text : String) (toks : List HlTok) :
    ∀ r ∈ allRanges text toks, r.1 < r.2 := by
  intro r hr
  unfold allRanges at hr
  rw [List.mem_flatten] at hr
  obtain ⟨l, hl, hrl⟩ := hr
  rw [List.mem_map] at hl
  obtain ⟨tk, _, htk⟩ := hl
  exact tokRanges_wf text tk r (htk ▸ hrl)

theorem sweepGo_head (l : List (Nat × Nat)) (cur : Nat × Nat) :
    ∃ e₂ tl, sweepGo cur l = (cur.1, e₂) :: tl ∧ cur.2 ≤ e₂ := by
  induction l generalizing cur with
  | nil => exact ⟨cur.2, [], rfl, le_refl _⟩
  | cons r rs ih =>
    unfold sweepGo
    by_cases hc : r.1 ≤ cur.2
    · rw [if_pos hc]
      obtain ⟨e₂, tl, heq, hle⟩ := ih (cur.1, max cur.2 r.2)
      exact ⟨e₂, tl, heq, le_trans (le_max_left _ _) hle⟩
    · rw [if_neg hc]
      exact ⟨cur.2, sweepGo r rs, rfl, le_refl _⟩

theorem sweepGo_chain (l : List (Nat × Nat)) (cur : Nat × Nat) :
    List.Chain' (fun a b => a.2 < b.1) (sweepGo cur l) := by
  induction l generalizing cur with
  | nil => simp [sweepGo]
  | cons r rs ih =>
    unfold sweepGo
    by_cases hc : r.1 ≤ cur.2
    · rw [if_pos hc]
      exact ih _
    · rw [if_neg hc]
      obtain ⟨e₂, tl, heq, _⟩ := sweepGo_head rs r
      rw [heq]
      rw [List.chain'_cons]
      constructor
      · show cur.2 < r.1
        omega
      · rw [← heq]
        exact ih r

theorem sweepGo_wf (l : List (Nat × Nat)) (cur : Nat × Nat)
    (hcur : cur.1 < cur.2) (hl : ∀ r ∈ l, r.1 < r.2) :
    ∀ r ∈ sweepGo cur l, r.1 < r.2 := by
  induction l generalizing cur with
  | nil =>
    intro r hr
    rcases List.mem_singleton.mp hr with h
    exact h ▸ hcur
  | cons a rs ih =>
    intro r hr
    unfold sweepGo at hr
    by_cases hc : a.1 ≤ cur.2
    · rw [if_pos hc] at hr
      refine ih (cur.1, max cur.2 a.2) ?_ ?_ r hr
      · show cur.1 < max cur.2 a.2
        have := le_max_left cur.2 a.2
        omega
      · intro x hx
        exact hl x (List.mem_cons_of_mem _ hx)
    · rw [if_neg hc] at hr
      rcases List.mem_cons.mp hr with hcase | hcase
      · exact hcase ▸ hcur
      · refine ih a (hl a (List.mem_cons_self _ _)) ?_ r hcase
        intro x hx
        exact hl x (List.mem_cons_of_mem _ hx)

theorem inRange_mk (n x y : Nat) : inRange n (x, y) ↔ x ≤ n ∧ n < y :=
  Iff.rfl

theorem coveredBy_cons (x : Nat × Nat) (X : List (Nat × Nat)) (n : Nat) :
    coveredBy (x :: X) n ↔ inRange n x ∨ coveredBy X n := by
  unfold coveredBy
  constructor
  · rintro ⟨r, hr, hin⟩
    rcases List.mem_cons.mp hr with h | h
    · exact Or.inl (h ▸ hin)
    · exact Or.inr ⟨r, h, hin⟩
  · rintro (h | ⟨r, hr, hin⟩)
    · exact ⟨x, List.mem_cons_self _ _, h⟩
    · exact ⟨r, List.mem_cons_of_mem _ hr, hin⟩

theorem sweepGo_cov (l : List (Nat × Nat)) (cur : Nat × Nat)
    (hsort : l.Pairwise (fun a b => a.1 ≤ b.1))
    (hcur : ∀ r ∈ l, cur.1 ≤ r.1) (n : Nat) :
    coveredBy (sweepGo cur l) n ↔ inRange n cur ∨ coveredBy l n := by
  induction l generalizing cur with
  | nil =>
    unfold sweepGo
    rw [coveredBy_cons]
  | cons a rs ih =>
    rw [List.pairwise_cons] at hsort
    obtain ⟨hhead, htail⟩ := hsort
    have hcur1a : cur.1 ≤ a.1 := hcur a (List.mem_cons_self _ _)
    unfold sweepGo
    by_cases hc : a.1 ≤ cur.2
    · rw [if_pos hc]
      rw [ih (cur.1, max cur.2 a.2) htail
        (fun r hr => le_trans hcur1a (hhead r hr))]
      have hm1 : cur.2 ≤ max cur.2 a.2 := le_max_left _ _
      have hm2 : a.2 ≤ max cur.2 a.2 := le_max_right _ _
      have hm3 := max_choice cur.2 a.2
      rw [coveredBy_cons, inRange_mk]
      constructor
      · rintro (⟨h1, h2⟩ | h)
        · rcases Nat.lt_or_ge n cur.2 with hlt | hge
          · exact Or.inl ⟨h1, hlt⟩
          · refine Or.inr (Or.inl ?_)
            show a.1 ≤ n ∧ n < a.2
            omega
        · exact Or.inr (Or.inr h)
      · rintro (h | h | h)
        · obtain ⟨h1, h2⟩ := h
          exact Or.inl ⟨h1, by omega⟩
        · obtain ⟨h1, h2⟩ := h
          exact Or.inl ⟨le_trans hcur1a h1, by omega⟩
        · exact Or.inr h
    · rw [if_neg hc]
      rw [coveredBy_cons, ih a htail hhead, coveredBy_cons]

theorem isort_sorted_starts (l : List (Nat × Nat)) :
    (isort rangeLe l).Pairwise (fun a b => a.1 ≤ b.1) := by
  refine (pairwise_isort rangeLe_total rangeLe_trans l).imp ?_
  intro a b hab
  unfold rangeLe at hab
  simpa using hab

theorem coveredBy_iff_of_mem_iff {l₁ l₂ : List (Nat × Nat)}
    (h : ∀ x, x ∈ l₁ ↔ x ∈ l₂) (n : Nat) :
    coveredBy l₁ n ↔ coveredBy l₂ n := by
  unfold coveredBy
  constructor
  · rintro ⟨r, hr, hin⟩
    exact ⟨r, (h r).mp hr, hin⟩
  · rintro ⟨r, hr, hin⟩
    exact ⟨r, (h r).mpr hr, hin⟩

/-- The merged ranges cover exactly the union of the input ranges. -/
theorem mergeRanges_cov (l : List (Nat × Nat)) (n : Nat) :
    coveredBy (mergeRanges l) n ↔ coveredBy l n := by
  unfold mergeRanges sweep
  cases hs : isort rangeLe l with
  | nil =>
    constructor
    · rintro ⟨r, hr, _⟩
      cases hr
    · rintro ⟨r, hr, hin⟩
      have hmem : r ∈ isort rangeLe l := (mem_isort _ _ _).mpr hr
      rw [hs] at hmem
      cases hmem
  | cons a rs =>
    have hsorted := isort_sorted_starts l
    rw [hs, List.pairwise_cons] at hsorted
    rw [sweepGo_cov rs a hsorted.2 hsorted.1 n, ← coveredBy_cons]
    refine coveredBy_iff_of_mem_iff (fun x => ?_) n
    rw [← hs]
    exact mem_isort _ _ _

/-- The merged ranges are still non-empty intervals. -/
theorem mergeRanges_wf (l : List (Nat × Nat))
    (hwf : ∀ r ∈ l, r.1 < r.2) : ∀ r ∈ mergeRanges l, r.1 < r.2 := by
  unfold mergeRanges sweep
  cases hs : isort rangeLe l with
  | nil =>
    intro r hr
    cases hr
  | cons a rs =>
    have hmem : ∀ x ∈ a :: rs, x.1 < x.2 := by
      intro x hx
      refine hwf x ((mem_isort rangeLe x l).mp ?_)
      rw [hs]
      exact hx
    exact sweepGo_wf rs a (hmem a (List.mem_cons_self _ _))
      (fun x hx => hmem x (List.mem_cons_of_mem _ hx))

/-- Consecutive merged ranges are separated by a gap, hence pairwise
disjoint. -/
theorem mergeRanges_chain (l : List (Nat × Nat)) :
    List.Chain' (fun a b => a.2 < b.1) (mergeRanges l) := by
  unfold mergeRanges sweep
  cases isort rangeLe l with
  | nil => exact List.chain'_nil
  | cons a rs => exact sweepGo_chain rs a

theorem chain_gap_tail_lt {a : Nat × Nat} {T : List (Nat × Nat)}
    (hwf : ∀ r ∈ a :: T, r.1 < r.2)
    (hch : List.Chain' (fun x y => x.2 < y.1) (a :: T)) :
    ∀ r ∈ T, a.2 < r.1 := by
  induction T generalizing a with
  | nil =>
    intro r hr
    cases hr
  | cons b T' ih =>
    intro r hr
    have hab : a.2 < b.1 := (List.chain'_cons.mp hch).1
    rcases List.mem_cons.mp hr with h | h
    · rw [h]
      exact hab
    · have hb := ih (a := b)
        (fun x hx => hwf x (List.mem_cons_of_mem _ hx))
        (List.chain'_cons.mp hch).2 r h
      have hbwf : b.1 < b.2 :=
        hwf b (List.mem_cons_of_mem _ (List.mem_cons_self _ _))
      omega

/-- A gap-separated list of non-empty intervals is determined by the set
of positions it covers. -/
theorem gapChain_cov_unique :
    ∀ (A B : List (Nat × Nat)),
      (∀ r ∈ A, r.1 < r.2) →
      List.Chain' (fun x y => x.2 < y.1) A →
      (∀ r ∈ B, r.1 < r.2) →
      List.Chain' (fun x y => x.2 < y.1) B →
      (∀ n, coveredBy A n ↔ coveredBy B n) → A = B := by
  intro A
  induction A with
  | nil =>
    intro B _ _ hBwf _ hcov
    cases B with
    | nil => rfl
    | cons b B' =>
      exfalso
      have hb : coveredBy (b :: B') b.1 :=
        ⟨b, List.mem_cons_self _ _, le_refl _, hBwf b (List.mem_cons_self _ _)⟩
      obtain ⟨r, hr, _⟩ := (hcov b.1).mpr hb
      cases hr
  | cons a A' ih =>
    intro B hAwf hAch hBwf hBch hcov
    cases B with
    | nil =>
      exfalso
      have ha : coveredBy (a :: A') a.1 :=
        ⟨a, List.mem_cons_self _ _, le_refl _, hAwf a (List.mem_cons_self _ _)⟩
      obtain ⟨r, hr, _⟩ := (hcov a.1).mp ha
      cases hr
    | cons b B' =>
      have hAtail := chain_gap_tail_lt hAwf hAch
      have hBtail := chain_gap_tail_lt hBwf hBch
      have hawf : a.1 < a.2 := hAwf a (List.mem_cons_self _ _)
      have hbwf : b.1 < b.2 := hBwf b (List.mem_cons_self _ _)
      have hAlow : ∀ m, m < a.1 → ¬ coveredBy (a :: A') m := by
        rintro m hm ⟨r, hr, hi1, hi2⟩
        rcases List.mem_cons.mp hr with h | h
        · rw [h] at hi1
          omega
        · have := hAtail r h
          omega
      have hBlow : ∀ m, m < b.1 → ¬ coveredBy (b :: B') m := by
        rintro m hm ⟨r, hr, hi1, hi2⟩
        rcases List.mem_cons.mp hr with h | h
        · rw [h] at hi1
          omega
        · have := hBtail r h
          omega
      have h1 : a.1 = b.1 := by
        by_contra hne
        rcases Nat.lt_or_ge a.1 b.1 with hlt | hge
        · exact hBlow a.1 hlt ((hcov a.1).mp
            ⟨a, List.mem_cons_self _ _, le_refl _, hawf⟩)
        · have hlt2 : b.1 < a.1 := by omega
          exact hAlow b.1 hlt2 ((hcov b.1).mpr
            ⟨b, List.mem_cons_self _ _, le_refl _, hbwf⟩)
      have hAend : ¬ coveredBy (a :: A') a.2 := by
        rintro ⟨r, hr, hi1, hi2⟩
        rcases List.mem_cons.mp hr with h | h
        · rw [h] at hi1 hi2
          omega
        · have := hAtail r h
          omega
      have hBend : ¬ coveredBy (b :: B') b.2 := by
        rintro ⟨r, hr, hi1, hi2⟩
        rcases List.mem_cons.mp hr with h | h
        · rw [h] at hi1 hi2
          omega
        · have := hBtail r h
          omega
      have h2 : a.2 = b.2 := by
        by_contra hne
        rcases Nat.lt_or_ge a.2 b.2 with hlt | hge
        · exact hAend ((hcov a.2).mpr
            ⟨b, List.mem_cons_self _ _, by omega, hlt⟩)
        · have hlt2 : b.2 < a.2 := by omega
          exact hBend ((hcov b.2).mp
            ⟨a, List.mem_cons_self _ _, by omega, hlt2⟩)
      have hcov' : ∀ n, coveredBy A' n ↔ coveredBy B' n := by
        intro n
        constructor
        · rintro ⟨r, hr, hin⟩
          have hgt : a.2 < n := lt_of_lt_of_le (hAtail r hr) hin.1
          obtain ⟨r', hr', hin'⟩ := (hcov n).mp
            ⟨r, List.mem_cons_of_mem _ hr, hin⟩
          rcases List.mem_cons.mp hr' with h | h
          · exfalso
            rw [h] at hin'
            obtain ⟨hi1, hi2⟩ := hin'
            omega
          · exact ⟨r', h, hin'⟩
        · rintro ⟨r, hr, hin⟩
          have hgt : b.2 < n := lt_of_lt_of_le (hBtail r hr) hin.1
          obtain ⟨r', hr', hin'⟩ := (hcov n).mpr
            ⟨r, List.mem_cons_of_mem _ hr, hin⟩
          rcases List.mem_cons.mp hr' with h | h
          · exfalso
            rw [h] at hin'
            obtain ⟨hi1, hi2⟩ := hin'
            omega
          · exact ⟨r', h, hin'⟩
      have htl := ih B'
        (fun r hr => hAwf r (List.mem_cons_of_mem _ hr)) hAch.tail
        (fun r hr => hBwf r (List.mem_cons_of_mem _ hr)) hBch.tail hcov'
      have hab : a = b := Prod.ext_iff.mpr ⟨h1, h2⟩
      rw [hab, htl]

/-- Merging is independent of the order of the input ranges. -/
theorem mergeRanges_perm {l₁ l₂ : List (Nat × Nat)} (hp : l₁.Perm l₂)
    (hwf : ∀ r ∈ l₁, r.1 < r.2) : mergeRanges l₁ = mergeRanges l₂ := by
  have hwf₂ : ∀ r ∈ l₂, r.1 < r.2 := fun r hr => hwf r (hp.mem_iff.mpr hr)
  refine gapChain_cov_unique _ _ (mergeRanges_wf l₁ hwf) (mergeRanges_chain l₁)
    (mergeRanges_wf l₂ hwf₂) (mergeRanges_chain l₂) ?_
  intro n
  rw [mergeRanges_cov, mergeRanges_cov]
  exact coveredBy_iff_of_mem_iff (fun x => hp.mem_iff) n

theorem allRanges_perm (text : String) {toks toks' : List HlTok}
    (hp : toks'.Perm toks) :
    (allRanges text toks').Perm (allRanges text toks) := by
  unfold allRanges
  exact (hp.map (tokRanges text)).flatten

theorem highlightAll_perm (text : String) {toks toks' : List HlTok}
    (hp : toks'.Perm toks) :
    highlightAll text toks' = highlightAll text toks := by
  have hr := allRanges_perm text hp
  have hm := mergeRanges_perm hr (allRanges_wf text toks')
  unfold highlightAll
  by_cases hn : allRanges text toks' = []
  · have hn2 : allRanges text toks = [] := by
      rw [hn] at hr
      exact hr.symm.eq_nil
    rw [hn, hn2]
  · have hn2 : allRanges text toks ≠ [] := by
      intro hc
      rw [hc] at hr
      exact hn hr.eq_nil
    have hie1 : (allRanges text toks').isEmpty = false := by
      cases h : allRanges text toks' with
      | nil => exact absurd h hn
      | cons x xs => rfl
    have hie2 : (allRanges text toks).isEmpty = false := by
      cases h : allRanges text toks with
      | nil => exact absurd h hn2
      | cons x xs => rfl
    rw [hie1, hie2, hm]

/-- C6 (amended): the highlighter's computed match ranges — every
occurrence each global regex scan locates, i.e. every occurrence except
those overlapping an earlier match of the same token — are merged so
that the bracketed ranges of the output (highlightAll brackets exactly
`mergeRanges (allRanges text toks)`) are non-empty, gap-separated and
hence pairwise disjoint, cover exactly the union of the computed ranges,
and the result is independent of the order in which tokens are
processed. -/
theorem c6_highlight_merge (text : String) (toks : List HlTok) :
    (∀ r ∈ mergeRanges (allRanges text toks), r.1 < r.2) ∧
    List.Chain' (fun a b => a.2 < b.1) (mergeRanges (allRanges text toks)) ∧
    (∀ n, coveredBy (mergeRanges (allRanges text toks)) n ↔
      coveredBy (allRanges text toks) n) ∧
    (∀ toks', toks'.Perm toks →
      highlightAll text toks' = highlightAll text toks) :=
  ⟨mergeRanges_wf _ (allRanges_wf text toks), mergeRanges_chain _,
   mergeRanges_cov _, fun _ hp => highlightAll_perm text hp⟩

/-- C6 witness: on the spec's own example both tokens are bracketed, and
swapping the token order leaves the output unchanged by the theorem. -/
theorem c6_witness :
    highlightAll c6Text
        [{ text := "mat", star := false }, { text := "cat", star := false }] =
      highlightAll c6Text c6Toks ∧
    highlightAll c6Text c6Toks = "the [cat] sat on the [mat]" := by
  constructor
  · exact (c6_highlight_merge c6Text c6Toks).2.2.2 _ (by decide)
  · decide

/-- C6 counterexample: with the self-overlapping token "aa" on text
"aaa" the occurrence at index 1 exists but position 2 is not bracketed
(the output is "[aa]a"), so the highlighter does not bracket every
occurrence of every token. -/
theorem c6_counterexample :
    matchesAt (lowerList "aaa") (lowerList "aa") 1 = true ∧
    highlightAll "aaa" [c6aTok] = "[aa]a" ∧
    ¬ coveredBy (mergeRanges (allRanges "aaa" [c6aTok])) 2 := by
  refine ⟨by decide, by decide, by decide⟩

end RecallOS
